import Mathlib

/-!
Verification of the satori-lite transaction-construction core.

This file gives a shallow embedding, in Lean, of the pure computational
heart of `satorilib/wallet` (the Evrmore variant):

* `TxUtils` helpers (`estimatedFee`, `intToLittleEndianHex`,
  `padHexStringTo8Bytes`, `isSatsDivisibilityValid`,
  `roundSatsDownToDivisibility`),
* the asset-tag byte layout (`AssetTransaction.satoriHex`),
* currency-UTXO selection (`Wallet._gatherCurrencyUnspents`),
* the fee-delegation completer (`Wallet.satoriOnlyCompleterSimple` with
  `EvrmoreWallet._checkSatoriValue`, `_gatherReservedCurrencyUnspent`,
  `_createPartialCompleterSimple`),
* the payment-channel commitment builder
  (`EvrmoreWallet.generateCommitmentTx`, `finaliseCommitmentTx`,
  `_signInput`), and
* the P2SH redeem-script builders (`P2SHRedeemScripts`).

Conventions used throughout:

* Python `int` values are embedded as `Int` where the source can go
  negative (transaction values, fee arithmetic) and as `Nat` where the
  source only ever handles naturals (counts, digit lists).
* Hex strings that always hold an even number of hex characters are
  embedded as lists of byte values (`List Nat`, one entry per hex pair);
  Python `str(n)` decimal strings are embedded as digit lists.
* External collaborators that are out of scope for this core
  (ECDSA signing, `SignatureHash`, base58check address derivation,
  broadcast) are abstracted as function parameters; all checks and data
  flow around them are embedded faithfully.
-/

namespace Satori

/-! ## TxUtils.estimatedFee (utils/transaction.py, lines 81-90) -/

/-- `TxUtils.estimatedFee`: flat per-item fee model,
`(inputCount + outputCount) * feeRate`. -/
def estimatedFee (inputCount outputCount feeRate : Nat) : Nat :=
  (inputCount + outputCount) * feeRate

/-! ## Decimal digit strings

`TxUtils.isSatsDivisibilityValid` and `TxUtils.roundSatsDownToDivisibility`
work on Python's `str(sats)` decimal string.  We embed `str(n)` as its list
of decimal digits, kept least-significant-first (so the *end* of the Python
string is the *front* of the list).  `toBaseLE` is a fuel-based structural
version of `Nat.digits` so that concrete instances compute by `decide`. -/

/-- Little-endian base-`b` digits computed with explicit fuel
(structural recursion, kernel-reducible). -/
def toBaseLEAux (b : Nat) : Nat → Nat → List Nat
  | 0, _ => []
  | fuel + 1, n => if n = 0 then [] else n % b :: toBaseLEAux b fuel (n / b)

/-- Little-endian base-`b` digits of `n` (empty for `0`). -/
def toBaseLE (b n : Nat) : List Nat := toBaseLEAux b n n

/-- The decimal digits of Python's `str(n)`, least-significant digit first.
Python renders `0` as the one-character string `"0"`. -/
def decStr (n : Nat) : List Nat := if n = 0 then [0] else toBaseLE 10 n

/-! ## TxUtils.isSatsDivisibilityValid / roundSatsDownToDivisibility
(utils/transaction.py, lines 171-180) -/

/-- `TxUtils.isSatsDivisibilityValid`:
`str(sats).endswith('0' * (8 - divisibility))`.  Ending in `k` zero
characters is, on the little-endian digit list, having the first `k`
entries equal to zero (which forces at least `k` digits). -/
def isSatsDivisibilityValid (sats : Nat) (divisibility : Nat) : Bool :=
  (decStr sats).take (8 - divisibility) == List.replicate (8 - divisibility) 0

/-- `TxUtils.roundSatsDownToDivisibility`:
if already valid return `sats` unchanged, otherwise replace the last
`8 - divisibility` decimal characters with zeros
(`int(str(sats)[0:-len(ending)] + ending)`).  Dropping the last `k`
characters of the string is dropping the first `k` little-endian digits;
appending the `k` zero characters of `ending` is prepending `k` zero
digits. -/
def roundSatsDownToDivisibility (sats : Nat) (divisibility : Nat) : Nat :=
  if isSatsDivisibilityValid sats divisibility then sats
  else
    Nat.ofDigits 10
      (List.replicate (8 - divisibility) 0 ++ (decStr sats).drop (8 - divisibility))

/-! ## Asset-tag byte layout

`AssetTransaction.satoriHex` (concepts/transaction.py, lines 209-231),
`TxUtils.intToLittleEndianHex` and `TxUtils.padHexStringTo8Bytes`
(utils/transaction.py, lines 199-229).  Hex strings always hold an even
number of characters here, so we embed them as byte lists (one entry per
hex pair).  Asset names are embedded as their byte lists; the source
writes `f"{len(asset):02x}"`, a single length byte for names of at most
255 bytes (the representable range of the one-byte length field). -/

/-- The bytes of the asset name `"SATORI"`. -/
def satoriAssetName : List Nat := [0x53, 0x41, 0x54, 0x4f, 0x52, 0x49]

/-- `TxUtils.intToLittleEndianHex`: minimal big-endian hex of `number`
(at least one byte, so `0` becomes `"00"`), byte-reversed — i.e. the
minimal little-endian byte string. -/
def intToLittleEndianHex (number : Nat) : List Nat :=
  if number = 0 then [0] else toBaseLE 256 number

/-- `TxUtils.padHexStringTo8Bytes`: `ljust` the hex string to 16
characters with `'0'`; on an even-length hex string this appends zero
bytes up to a total of 8. -/
def padHexStringTo8Bytes (l : List Nat) : List Nat :=
  l ++ List.replicate (8 - l.length) 0

/-- `AssetTransaction.satoriHex`: currency symbol bytes, type tag `0x74`,
one length byte, then the asset-name bytes.  The source lower-cases the
currency before comparing; the wallet always passes its lower-case
`symbol` property, and we embed the already-normalized comparison.
An unknown currency raises (`none` here). -/
def satoriHex (currency : String) (asset : List Nat) : Option (List Nat) :=
  if currency = "rvn" then
    some ([0x72, 0x76, 0x6e] ++ [0x74] ++ [asset.length] ++ asset)
  else if currency = "evr" then
    some ([0x65, 0x76, 0x72] ++ [0x74] ++ [asset.length] ++ asset)
  else none

/-- The full asset-tag payload as assembled at every producing site
(`_compileSatoriOutputs`, `_compileSatoriChangeOutput`, `_compileInputs`,
`_checkSatoriValue`):
`satoriHex(symbol) + padHexStringTo8Bytes(intToLittleEndianHex(sats))`. -/
def encodeAssetTag (currency : String) (asset : List Nat) (amountSats : Nat) :
    Option (List Nat) :=
  (satoriHex currency asset).map
    (· ++ padHexStringTo8Bytes (intToLittleEndianHex amountSats))

/-- Decoder for the asset-tag byte layout (the layout the spec requires
round-trip decodability for): 3 symbol bytes, the `0x74` type tag, one
name-length byte, the name bytes, and exactly 8 little-endian amount
bytes. -/
def decodeAssetTag : List Nat → Option (String × List Nat × Nat)
  | s1 :: s2 :: s3 :: t :: len :: rest =>
    if t = 0x74 then
      match (if [s1, s2, s3] = [0x72, 0x76, 0x6e] then some "rvn"
             else if [s1, s2, s3] = [0x65, 0x76, 0x72] then some "evr"
             else none) with
      | some sym =>
        if rest.length = len + 8 then
          some (sym, rest.take len, Nat.ofDigits 256 (rest.drop len))
        else none
      | none => none
    else none
  | _ => none

/-! ## Wallet._gatherCurrencyUnspents (wallet.py, lines 684-744)

UTXOs carry several fields, but the selection loop only reads `value`; we
embed the pool as its list of values (each later theorem talks about
multisets of values).  Only the deterministic path (`randomly=False`) is
embedded — the randomized path draws from an external RNG. -/

/-- One accumulation pass of `_gatherCurrencyUnspents`: pop the head of
`remaining` while the accumulated total is below `sats` plus the
re-evaluated fee for the current input count; the returned flag is the
source's `encounteredDust` (the pool ran out with the threshold unmet).
The descending fallback pass is this same loop run on the reversed list
(`pop()` takes the last element, i.e. the head of the reversal). -/
def gatherPass (inputCount outputCount feeRate sats : Nat) :
    List Nat → Nat → List Nat → List Nat × Nat × Bool
  | [], gathered, acc =>
    if gathered < sats + estimatedFee (inputCount + acc.length) outputCount feeRate then
      (acc, gathered, true)
    else (acc, gathered, false)
  | x :: rest, gathered, acc =>
    if gathered < sats + estimatedFee (inputCount + acc.length) outputCount feeRate then
      gatherPass inputCount outputCount feeRate sats rest (gathered + x) (acc ++ [x])
    else (acc, gathered, false)

/-- The `TransactionFailure('tx: must retain a reserve of currency to
cover fees')` raised by `_gatherCurrencyUnspents`. -/
inductive GatherErr
  | insufficientReserve
  deriving DecidableEq, Repr

/-- `Wallet._gatherCurrencyUnspents` (deterministic path): filter to
positive values, sort ascending, fail if the total cannot cover
`sats + reserve`, accumulate smallest-first, and on pool exhaustion
(`encounteredDust`) restart over the gathered set largest-first. -/
def gatherCurrencyUnspents (reserve inputCount outputCount feeRate sats : Nat)
    (unspentCurrency : List Nat) : Except GatherErr (List Nat × Nat) :=
  let pos := unspentCurrency.filter (fun x => 0 < x)
  let sorted := List.insertionSort (· ≤ ·) pos
  if sorted.sum < sats + reserve then .error .insufficientReserve
  else
    match gatherPass inputCount outputCount feeRate sats sorted 0 [] with
    | (acc, _, true) =>
      match gatherPass inputCount outputCount feeRate sats acc.reverse 0 [] with
      | (acc2, g2, _) => .ok (acc2, g2)
    | (acc, g, false) => .ok (acc, g)

/-! ## EvrmoreWallet.generateCommitmentTx (evrmore/wallet.py, lines 744-855)

The commitment builder's observable result is its output list: amounts in
sats and where they pay (the receiver's address or the channel's own P2SH
script).  Address/script construction and the partial signature are
external-library calls (`CEvrmoreAddress`, `_createPartialOriginatorSimple`)
that do not affect the amounts; we embed the value computation and every
`raise` faithfully, on `Int` like Python ints. -/

/-- The `ValueError`s of `generateCommitmentTx`, in source order. -/
inductive CommitErr
  | feeNotPositive        -- "Transaction fee must be positive"
  | badPaymentAmount      -- "Payment amount must be positive and not exceed the funding value"
  | dustZone              -- "In Dust Zone."
  | feeExceedsFunds       -- "Fee ... exceeds available funds ..."
  | feeExceedsRemainder   -- "Fee ... exceeds remainder ..."
  deriving DecidableEq, Repr

/-- Where a commitment output pays. -/
inductive Payee
  | receiver   -- `CEvrmoreAddress(receiver_addr).to_scriptPubKey()`
  | channel    -- `P2SHEvrmoreAddress.from_redeemScript(redeem_script).to_scriptPubKey()`
  deriving DecidableEq, Repr

/-- `EvrmoreWallet.generateCommitmentTx`: the output list (value, payee)
of the commitment transaction, or the `ValueError` raised.  The final
`if not txouts` guard of the source is unreachable (every surviving
branch appended an output) and is omitted. -/
def generateCommitmentTx (fundingValue payToReceiverSats txFeeSats dustThresholdMultiple : Int)
    (respectDustZone : Bool) : Except CommitErr (List (Int × Payee)) :=
  if txFeeSats ≤ 0 then .error .feeNotPositive
  else if ¬(0 < payToReceiverSats ∧ payToReceiverSats ≤ fundingValue) then
    .error .badPaymentAmount
  else
    let remainder := fundingValue - payToReceiverSats
    let dustThreshold := txFeeSats * 3 * dustThresholdMultiple
    if remainder = 0 ∨ remainder < dustThreshold then
      if remainder > 0 ∧ respectDustZone then .error .dustZone
      else
        -- 1 input, 1 output: tx_fee_sats = tx_fee_sats * 2
        let actualReceiverAmount := fundingValue - txFeeSats * 2
        if actualReceiverAmount ≤ 0 then .error .feeExceedsFunds
        else .ok [(actualReceiverAmount, .receiver)]
    else
      -- 1 input, 2 outputs: tx_fee_sats = tx_fee_sats * 3
      let changeAmount := remainder - txFeeSats * 3
      if changeAmount ≤ 0 then .error .feeExceedsRemainder
      else .ok [(payToReceiverSats, .receiver), (changeAmount, .channel)]

/-! ## Script model

`CScript` values are ordered sequences of opcodes, pushed integers and
pushed byte strings; we embed them as lists of a tagged variant, exactly
the three element kinds the source pushes. -/

/-- The opcodes this codebase emits or inspects. -/
inductive Op
  | opDup | opHash160 | opEqualVerify | opCheckSig | opEvrAsset | opDrop | opReturn
  | opIf | opElse | opEndif | opCheckMultisig | opCSV | opCLTV
  deriving DecidableEq, Repr

/-- One element of a `CScript`. -/
inductive ScriptElem
  | op (o : Op)
  | num (n : Int)
  | data (b : List Nat)
  deriving DecidableEq, Repr

/-! ## P2SHRedeemScripts (evrmore/scripts.py, lines 36-186) -/

/-- The `ValueError`s of the two channel-script builders, in source
order. -/
inductive ScriptErr
  | missingTimeout        -- "Either blocks or minutes/timestamp must be specified"
  | bothTimeouts          -- "Only one of blocks or minutes/timestamp can be specified"
  | blocksOutOfRange      -- renewable: "blocks must be between 1 and 65535"
  | minutesOutOfRange     -- renewable: "minutes must be between 1 and ..."
  | blocksNotPositive     -- nonrenewable: "blocks must be positive"
  | timestampNotPositive  -- nonrenewable: "timestamp must be positive"
  | timestampAmbiguous    -- nonrenewable: "... too small to be a valid timestamp ..."
  deriving DecidableEq, Repr

/-- The common channel redeem-script shape:
`IF 2 <sender> <receiver> 2 CHECKMULTISIG
 ELSE <timeout> <CSV|CLTV> DROP <sender> CHECKSIG ENDIF`. -/
def channelScriptBody (sender receiver : List Nat) (timeoutValue : Int)
    (timeoutOp : Op) : List ScriptElem :=
  [.op .opIf,
   .num 2, .data sender, .data receiver, .num 2, .op .opCheckMultisig,
   .op .opElse,
   .num timeoutValue, .op timeoutOp, .op .opDrop,
   .data sender, .op .opCheckSig,
   .op .opEndif]

/-- `P2SHRedeemScripts.renewableLightChannel`.  Keys are taken as byte
lists (the hex-string acceptance of the source is the same bytes).  The
Python bound `minutes <= 65535 * 8.5` is exact float arithmetic
(`557047.5`), so for integer minutes it is `minutes ≤ 557047`. -/
def renewableLightChannel (sender receiver : List Nat)
    (blocks minutes : Option Int) : Except ScriptErr (List ScriptElem) :=
  match blocks, minutes with
  | none, none => .error .missingTimeout
  | some _, some _ => .error .bothTimeouts
  | some b, none =>
    if ¬(1 ≤ b ∧ b ≤ 65535) then .error .blocksOutOfRange
    else .ok (channelScriptBody sender receiver b .opCSV)
  | none, some m =>
    if ¬(1 ≤ m ∧ m ≤ 557047) then .error .minutesOutOfRange
    else
      -- timeUnits = (minutes * 60) // 512, minimum 1 unit,
      -- then 0x00400000 | (timeUnits & 0xFFFF); minutes ≥ 1 here, so the
      -- Python arithmetic is the following Nat arithmetic.
      let timeUnits := m.toNat * 60 / 512
      let clamped := if timeUnits < 1 then 1 else timeUnits
      .ok (channelScriptBody sender receiver
        (Int.ofNat (0x00400000 ||| (clamped &&& 0xFFFF))) .opCSV)

/-- `P2SHRedeemScripts.nonrenewableLightChannel` (integer timestamps; the
`datetime` acceptance of the source converts to the same integer before
any check). -/
def nonrenewableLightChannel (sender receiver : List Nat)
    (blocks timestamp : Option Int) : Except ScriptErr (List ScriptElem) :=
  match blocks, timestamp with
  | none, none => .error .missingTimeout
  | some _, some _ => .error .bothTimeouts
  | some b, none =>
    if b ≤ 0 then .error .blocksNotPositive
    else .ok (channelScriptBody sender receiver b .opCLTV)
  | none, some ts =>
    if ts ≤ 0 then .error .timestampNotPositive
    else if ts < 500000000 then .error .timestampAmbiguous
    else .ok (channelScriptBody sender receiver ts .opCLTV)

/-! ## EvrmoreWallet._compileMemoOutput (evrmore/wallet.py, lines 374-384) -/

/-- `EvrmoreWallet._compileMemoOutput`: a zero-value `OP_RETURN` output
carrying the raw memo, emitted only when the memo is present, non-empty
and `4 < len(memo) < 80`; in every other case the function returns
`None` — it never raises.  The memo is embedded as its byte list. -/
def compileMemoOutput (memo : Option (List Nat)) : Option (Int × List ScriptElem) :=
  match memo with
  | none => none
  | some m =>
    if m ≠ [] ∧ 4 < m.length ∧ m.length < 80 then
      some (0, [.op .opReturn, .data m])
    else none

/-! ## Fee-delegation completer
(wallet.py `satoriOnlyCompleterSimple` lines 1344-1446,
`_gatherReservedCurrencyUnspent` lines 667-672,
evrmore/wallet.py `_checkSatoriValue` lines 194-220,
`_compileInputs` lines 222-297, `_createPartialCompleterSimple`
lines 423-440, `_signInput` lines 442-495).

Transactions are embedded structurally (ordered inputs and outputs);
serialization/deserialization and broadcast are external.  Two external
collaborators are abstracted as function parameters:
`h160ToAddr` for `TxUtils.hash160ToAddress` (base58check re-derivation of
an address from an embedded public-key hash) and `mkSig` for
`identity._privateKeyObj.sign(SignatureHash(script, tx, i, flag))`
(ECDSA over the external library's sighash), taking the input index and
the sighash flag. -/

/-- An output: base-currency value and locking script. -/
structure TxOutM where
  nValue : Int
  scriptPubKey : List ScriptElem
  deriving DecidableEq, Repr

/-- An input: previous outpoint and unlocking script. -/
structure TxInM where
  txHash : List Nat
  txPos : Nat
  scriptSig : List ScriptElem
  deriving DecidableEq, Repr

/-- A (mutable) transaction: ordered inputs and outputs. -/
structure TxM where
  vin : List TxInM
  vout : List TxOutM
  deriving DecidableEq, Repr

/-- An unspent output as the wallet caches it. -/
structure UtxoM where
  txHash : List Nat
  txPos : Nat
  value : Int
  scriptPubKey : Option (List Nat)
  deriving DecidableEq, Repr

/-- Python negative indexing `l[-k]` (`none` models the IndexError when
`k` exceeds the length; the source only uses `k ≥ 1`). -/
def negGet {α : Type} (l : List α) (k : Nat) : Option α :=
  if 1 ≤ k ∧ k ≤ l.length then l.get? (l.length - k) else none

/-- Python `b.startswith(p)`: `p` is a prefix of `b`. -/
def listStartsWith : List Nat → List Nat → Bool
  | [], _ => true
  | _ :: _, [] => false
  | x :: xs, y :: ys => x == y && listStartsWith xs ys

/-- The prefix `_checkSatoriValue` compares against:
`satoriHex(self.symbol) + padHexStringTo8Bytes(intToLittleEndianHex(asSats(amount)))`
for the Evrmore wallet (`symbol = 'evr'`, asset `SATORI`), with the
amount already in sats. -/
def satoriTagBytes (amountSats : Nat) : List Nat :=
  (satoriHex "evr" satoriAssetName).getD [] ++
    padHexStringTo8Bytes (intToLittleEndianHex amountSats)

/-- The scan loop of `_checkSatoriValue`: find the first `OP_EVR_ASSET`;
the element right after it is subjected to `x.startswith(...)`.  When it
is pushed bytes, the scan returns whether the expected tag is its
prefix; when it is an opcode or a pushed integer (CScript iteration
yields a non-bytes value there), `x.startswith` raises
**AttributeError** — reachable through adversarial deserialized
transactions — modelled as `none`.  When `OP_EVR_ASSET` never occurs, or
is the last element, the loop falls through to `False`. -/
def checkSatoriGo (expected : List Nat) : List ScriptElem → Option Bool
  | .op .opEvrAsset :: rest =>
    match rest with
    | .data b :: _ => some (listStartsWith expected b)
    | _ :: _ => none
    | [] => some false
  | _ :: rest => checkSatoriGo expected rest
  | [] => some false

/-- `EvrmoreWallet._checkSatoriValue` with the amount already as sats
(`none` is the AttributeError on a malformed script). -/
def checkSatoriValue (amountSats : Nat) (out : TxOutM) : Option Bool :=
  checkSatoriGo (satoriTagBytes amountSats) out.scriptPubKey

/-- The failures of `satoriOnlyCompleterSimple`: the four
`TransactionFailure`s, the `unable to find sats` failure, the IndexError
a too-short output list would raise, and the AttributeError
`_checkSatoriValue` raises on a malformed asset-tag script. -/
inductive CompleterErr
  | feeMismatch
  | claimMismatch
  | claimAddressMismatch
  | changeAddressMismatch
  | reservedUtxoNotFound
  | indexError
  | attributeError
  deriving DecidableEq, Repr

/-- `_verifyFee`: `reportedFeeSats < TxUtils.asSats(1)` (one whole coin,
`100000000` sats) `and reportedFeeSats < feeSatsReserved and
tx.vout[-1 (or -2 for bridge)].nValue == feeSatsReserved −
reportedFeeSats`, with Python's short-circuit `and` (the output is only
indexed when the first two conjuncts hold). -/
def verifyFee (bridge : Bool) (tx : TxM) (feeSatsReserved reportedFeeSats : Int) :
    Except CompleterErr Bool :=
  if reportedFeeSats < 100000000 then
    if reportedFeeSats < feeSatsReserved then
      match negGet tx.vout (if bridge then 2 else 1) with
      | none => .error .indexError
      | some o => .ok (o.nValue == feeSatsReserved - reportedFeeSats)
    else .ok false
  else .ok false

/-- The non-bridge `for x in tx.vout` loop of `_verifyClaim`: every
output is scanned with `_checkSatoriValue` (there is no `break`), so the
AttributeError of a malformed output propagates even after a successful
match on an earlier output. -/
def verifyClaimLoop (mundoFeeSats : Nat) :
    List TxOutM → Bool → Except CompleterErr Bool
  | [], mundoPaid => .ok mundoPaid
  | x :: rest, mundoPaid =>
    match checkSatoriValue mundoFeeSats x with
    | none => .error .attributeError
    | some b => verifyClaimLoop mundoFeeSats rest (mundoPaid || b)

/-- The bridge `for x in tx.vout` loop of `_verifyClaim`: per output the
bridge-fee check runs first, then the mundo-fee check, both flags
accumulated over the whole list (no `break`). -/
def verifyClaimLoopBridge (mundoFeeSats bridgeFeeSats : Nat) :
    List TxOutM → Bool → Bool → Except CompleterErr Bool
  | [], bridgePaid, mundoPaid => .ok (bridgePaid && mundoPaid)
  | x :: rest, bridgePaid, mundoPaid =>
    match checkSatoriValue bridgeFeeSats x with
    | none => .error .attributeError
    | some b1 =>
      match checkSatoriValue mundoFeeSats x with
      | none => .error .attributeError
      | some b2 =>
        verifyClaimLoopBridge mundoFeeSats bridgeFeeSats rest
          (bridgePaid || b1) (mundoPaid || b2)

/-- `_verifyClaim`: some output pays exactly the mundo fee
(`_checkSatoriValue`), and for bridge sends also some output pays exactly
the bridge fee; an AttributeError inside a scan propagates. -/
def verifyClaim (bridge : Bool) (tx : TxM) (mundoFeeSats bridgeFeeSats : Nat) :
    Except CompleterErr Bool :=
  if bridge then verifyClaimLoopBridge mundoFeeSats bridgeFeeSats tx.vout false false
  else verifyClaimLoop mundoFeeSats tx.vout false

/-- The `for i, x in enumerate(scriptPubKey): if i == 2 and
isinstance(x, bytes): return addr == hash160ToAddress(x)` loop of
`_verifyClaimAddress` / `_verifyChangeAddress`: element 2, when pushed
bytes, re-derives the address; in every other case the loop falls
through to `False`. -/
def scriptAddrMatches (h160ToAddr : List Nat → String) (script : List ScriptElem)
    (addr : String) : Bool :=
  match script.get? 2 with
  | some (.data b) => addr == h160ToAddr b
  | _ => false

/-- `_verifyClaimAddress`: the claim output (`vout[-2]`, `vout[-4]` for
bridge) must decode to `completerAddress`. -/
def verifyClaimAddress (h160ToAddr : List Nat → String) (bridge : Bool) (tx : TxM)
    (completerAddress : String) : Except CompleterErr Bool :=
  match negGet tx.vout (if bridge then 4 else 2) with
  | none => .error .indexError
  | some o => .ok (scriptAddrMatches h160ToAddr o.scriptPubKey completerAddress)

/-- `_verifyChangeAddress`: the currency-change output (`vout[-1]`,
`vout[-2]` for bridge) must decode to `changeAddress`. -/
def verifyChangeAddress (h160ToAddr : List Nat → String) (bridge : Bool) (tx : TxM)
    (changeAddress : String) : Except CompleterErr Bool :=
  match negGet tx.vout (if bridge then 2 else 1) with
  | none => .error .indexError
  | some o => .ok (scriptAddrMatches h160ToAddr o.scriptPubKey changeAddress)

/-- `Wallet._gatherReservedCurrencyUnspent`: the first unspent whose
value **equals** `exactSats` (`x.get('value') == exactSats`), `None` when
there is none. -/
def gatherReservedCurrencyUnspent (unspentCurrency : List UtxoM) (exactSats : Int) :
    Option UtxoM :=
  (unspentCurrency.filter fun u => u.value == exactSats).head?

def SIGHASH_ALL : Nat := 0x01

def SIGHASH_ANYONECANPAY : Nat := 0x80

/-- `_signInput`, plain-P2PKH branch: `scriptSig = [sign(sighash) +
bytes([sighashFlag]), pub]`. -/
def signInputP2PKH (mkSig : Nat → Nat → List Nat) (pub : List Nat)
    (i flag : Nat) : List ScriptElem :=
  [.data (mkSig i flag ++ [flag]), .data pub]

/-- `_compileInputs` (currency part): one input per UTXO bound to its
outpoint; the unlocking-script template (cached scriptPubKey or the
default key-hash template) feeds only the external `SignatureHash` and is
absorbed by the `mkSig` abstraction. -/
def compileCurrencyInputs (utxos : List UtxoM) : List TxInM :=
  utxos.map fun u => { txHash := u.txHash, txPos := u.txPos, scriptSig := [] }

/-- The signing loop of `_createPartialCompleterSimple`
(`for i, (txin, …) in enumerate(zip(tx.vin[startIndex:], txinScripts),
start=startIndex)`): sign each appended input at its index. -/
def signNewInputs (mkSig : Nat → Nat → List Nat) (pub : List Nat) :
    Nat → List TxInM → List TxInM
  | _, [] => []
  | i, txin :: rest =>
    { txin with scriptSig := (signInputP2PKH mkSig pub i
        (SIGHASH_ANYONECANPAY ||| SIGHASH_ALL)) } ::
      signNewInputs mkSig pub (i + 1) rest

/-- `_createPartialCompleterSimple`: extend `tx.vin` with the new inputs
and sign each (from `startIndex = len(tx.vin) - len(txins)`) with
`SIGHASH_ANYONECANPAY | SIGHASH_ALL`. -/
def createPartialCompleterSimple (mkSig : Nat → Nat → List Nat) (pub : List Nat)
    (tx : TxM) (txins : List TxInM) : TxM :=
  { tx with vin := tx.vin ++ signNewInputs mkSig pub tx.vin.length txins }

/-- `Wallet.satoriOnlyCompleterSimple`: verify fee, claim, claim address
and change address in that order (each failure raising before anything
else happens), then locate the reserved currency UTXO by exact value,
compile it into one input, sign it and return the completed transaction
(broadcast is external).  The `claim mismatch` raise messages format
`tx.vout[-2]` (bridge: `tx.vout[-4]`, `tx.vout[-3]`), an IndexError on a
too-short output list. -/
def satoriOnlyCompleterSimple (h160ToAddr : List Nat → String)
    (mkSig : Nat → Nat → List Nat) (pub : List Nat)
    (unspentCurrency : List UtxoM) (tx : TxM)
    (feeSatsReserved reportedFeeSats : Int)
    (changeAddress completerAddress : String)
    (bridgeTransaction : Bool) (mundoFeeSats bridgeFeeSats : Nat) :
    Except CompleterErr TxM :=
  match verifyFee bridgeTransaction tx feeSatsReserved reportedFeeSats with
  | .error e => .error e
  | .ok false => .error .feeMismatch
  | .ok true =>
    match verifyClaim bridgeTransaction tx mundoFeeSats bridgeFeeSats with
    | .error e => .error e
    | .ok true =>
      match verifyClaimAddress h160ToAddr bridgeTransaction tx completerAddress with
      | .error e => .error e
      | .ok false => .error .claimAddressMismatch
      | .ok true =>
        match verifyChangeAddress h160ToAddr bridgeTransaction tx changeAddress with
        | .error e => .error e
        | .ok false => .error .changeAddressMismatch
        | .ok true =>
          match gatherReservedCurrencyUnspent unspentCurrency feeSatsReserved with
          | none => .error .reservedUtxoNotFound
          | some u =>
            .ok (createPartialCompleterSimple mkSig pub tx (compileCurrencyInputs [u]))
    | .ok false =>
      if bridgeTransaction then
        if tx.vout.length < 4 then .error .indexError else .error .claimMismatch
      else
        if tx.vout.length < 2 then .error .indexError else .error .claimMismatch

/-- The four acceptance conditions of the fee-delegation claim, written
as the spec states them: fee sanity (absolute one-coin ceiling and
strictly below the reservation), exact currency-change value, existence
of the exact fee-claim output(s), and both address decodes. -/
def completerChecksOk (h160ToAddr : List Nat → String) (tx : TxM)
    (feeSatsReserved reportedFeeSats : Int)
    (changeAddress completerAddress : String) (bridge : Bool)
    (mundoFeeSats bridgeFeeSats : Nat) : Prop :=
  (reportedFeeSats < 100000000 ∧ reportedFeeSats < feeSatsReserved ∧
    (∃ chg, negGet tx.vout (if bridge then 2 else 1) = some chg ∧
      chg.nValue = feeSatsReserved - reportedFeeSats)) ∧
  ((∃ o ∈ tx.vout, checkSatoriValue mundoFeeSats o = some true) ∧
    (bridge = true → ∃ o ∈ tx.vout, checkSatoriValue bridgeFeeSats o = some true)) ∧
  (∃ o, negGet tx.vout (if bridge then 4 else 2) = some o ∧
    ∃ bts, o.scriptPubKey.get? 2 = some (.data bts) ∧
      completerAddress = h160ToAddr bts) ∧
  (∃ o, negGet tx.vout (if bridge then 2 else 1) = some o ∧
    ∃ bts, o.scriptPubKey.get? 2 = some (.data bts) ∧
      changeAddress = h160ToAddr bts)

/-! Concrete fixtures for exercising the completer theorems: a partial
transaction with a mundo-fee claim output (to hash `[7]`) and a currency
change output of `900 = 1000 − 100` (to hash `[9]`), an address deriver
mapping those hashes to `"comp"` / `"chg"`, and one reserved UTXO worth
exactly `1000`. -/

def cClaimOut : TxOutM :=
  ⟨0, [.op .opDup, .op .opHash160, .data [7], .op .opEqualVerify, .op .opCheckSig,
       .op .opEvrAsset, .data (satoriTagBytes 10000), .op .opDrop]⟩

def cChgOut : TxOutM :=
  ⟨900, [.op .opDup, .op .opHash160, .data [9], .op .opEqualVerify, .op .opCheckSig]⟩

def cTx : TxM := ⟨[], [cClaimOut, cChgOut]⟩

def cH160 : List Nat → String := fun b => if b = [7] then "comp" else "chg"

def cMkSig : Nat → Nat → List Nat := fun _ _ => [3]

def cPub : List Nat := [5]

def cUnspent : List UtxoM := [⟨[1], 0, 1000, none⟩]

/-! ## Multisig signature ordering
(`_signInput` P2SH branch, evrmore/wallet.py lines 463-478;
`finaliseCommitmentTx` lines 858-878).

Python `bytes` compare lexicographically with a strict prefix sorting
first — exactly the lexicographic `≤` on `List ℕ`.  `list.sort()` is a
stable sort under that total order; since equal keys are identical byte
strings, any sorted permutation of the same multiset is the same list,
so an insertion sort embeds it faithfully. -/

/-- `_signInput`, P2SH branch: `sig = sign(sighash) + bytes([flag])`;
with co-signer `signatures` supplied (`if signatures:`), the combined
`signatures + [sig]` is sorted by raw byte value and placed ahead of the
redeem script; otherwise the single-signature `[sig, redeem_script]`. -/
def signInputP2SH (mkSig : Nat → Nat → List Nat) (i flag : Nat)
    (redeemScript : List Nat) (signatures : List (List Nat)) : List ScriptElem :=
  let sig := mkSig i flag ++ [flag]
  if signatures ≠ [] then
    (List.insertionSort (· ≤ ·) (signatures ++ [sig])).map .data ++
      [.data redeemScript]
  else
    [.data sig, .data redeemScript]

/-- `EvrmoreWallet.finaliseCommitmentTx`: take input 0, extract the
already-embedded signature bytes from its unlocking script
(`[e for e in txin.scriptSig if isinstance(e, bytes)]`), add our own
signature over the same redeem script with `SIGHASH_ALL`, and rebuild the
unlocking script via `_signInput`.  (`none` models the IndexError on an
empty `vin`; a commitment transaction always has exactly one input.) -/
def finaliseCommitmentTx (mkSig : Nat → Nat → List Nat) (tx : TxM)
    (redeemScript : List Nat) : Option TxM :=
  match tx.vin with
  | [] => none
  | txin :: rest =>
    let oldSigs := txin.scriptSig.filterMap fun e =>
      match e with
      | .data b => some b
      | _ => none
    some { tx with vin :=
      { txin with scriptSig := signInputP2SH mkSig 0 SIGHASH_ALL redeemScript oldSigs } :: rest }

theorem toBaseLEAux_eq_digits (b : Nat) (hb : 1 < b) :
    ∀ fuel n, n ≤ fuel → toBaseLEAux b fuel n = Nat.digits b n := by
  intro fuel
  induction fuel with
  | zero =>
    intro n hn
    interval_cases n
    simp [toBaseLEAux]
  | succ fuel ih =>
    intro n hn
    by_cases h0 : n = 0
    · subst h0; simp [toBaseLEAux]
    · have hpos : 0 < n := Nat.pos_of_ne_zero h0
      have hdiv : n / b ≤ fuel := by
        have : n / b < n := Nat.div_lt_self hpos hb
        omega
      rw [toBaseLEAux, if_neg h0, ih _ hdiv, Nat.digits_def' hb hpos]

theorem toBaseLE_eq_digits (b n : Nat) (hb : 1 < b) :
    toBaseLE b n = Nat.digits b n :=
  toBaseLEAux_eq_digits b hb n n (Nat.le_refl n)

theorem ofDigits_replicate_zero (b k : Nat) :
    Nat.ofDigits b (List.replicate k 0) = 0 := by
  induction k with
  | zero => simp [Nat.ofDigits]
  | succ k ih => simp [List.replicate_succ, Nat.ofDigits, ih]

theorem ofDigits_digits_drop (b : Nat) (hb : 1 < b) (k : Nat) :
    ∀ n, Nat.ofDigits b ((Nat.digits b n).drop k) = n / b ^ k := by
  induction k with
  | zero => intro n; simp [Nat.ofDigits_digits]
  | succ k ih =>
    intro n
    by_cases h0 : n = 0
    · subst h0; simp
    · have hpos : 0 < n := Nat.pos_of_ne_zero h0
      rw [Nat.digits_def' hb hpos, List.drop_succ_cons, ih (n / b),
        Nat.div_div_eq_div_mul, ← pow_succ']

theorem digits_take_zero_iff_dvd (b : Nat) (hb : 1 < b) (k : Nat) :
    ∀ n, 0 < n →
      ((Nat.digits b n).take k = List.replicate k 0 ↔ b ^ k ∣ n) := by
  induction k with
  | zero => intro n _; simp
  | succ k ih =>
    intro n hpos
    have hb0 : 0 < b := by omega
    have hdm := Nat.div_add_mod n b
    rw [Nat.digits_def' hb hpos, List.take_succ_cons, List.replicate_succ]
    constructor
    · intro h
      simp only [List.cons.injEq] at h
      obtain ⟨hmod, htail⟩ := h
      have hq : 0 < n / b := by
        rcases Nat.eq_zero_or_pos (n / b) with h0 | h0
        · rw [h0, Nat.mul_zero] at hdm; omega
        · exact h0
      obtain ⟨c, hc⟩ := (ih (n / b) hq).mp htail
      refine ⟨c, ?_⟩
      have hn : n = b * (n / b) := by omega
      rw [hn, hc, pow_succ]
      ring
    · intro hdvd
      obtain ⟨c, hc⟩ := hdvd
      have hn : n = b * (b ^ k * c) := by rw [hc, pow_succ]; ring
      have hmod : n % b = 0 := by rw [hn]; exact Nat.mul_mod_right b _
      have hdiv : n / b = b ^ k * c := by
        rw [hn]; exact Nat.mul_div_cancel_left _ hb0
      have hq : 0 < n / b := by
        rw [hdiv]
        rcases Nat.eq_zero_or_pos (b ^ k * c) with h0 | h0
        · exfalso
          have : n = 0 := by rw [hn, h0, Nat.mul_zero]
          omega
        · exact h0
      simp only [List.cons.injEq]
      exact ⟨hmod, (ih (n / b) hq).mpr ⟨c, hdiv⟩⟩

theorem isSatsDivisibilityValid_iff (sats d : Nat) (hpos : 0 < sats) :
    isSatsDivisibilityValid sats d = true ↔ 10 ^ (8 - d) ∣ sats := by
  unfold isSatsDivisibilityValid decStr
  rw [if_neg (by omega), toBaseLE_eq_digits 10 sats (by norm_num), beq_iff_eq]
  exact digits_take_zero_iff_dvd 10 (by norm_num) (8 - d) sats hpos

/-- The decimal-string manipulation in `roundSatsDownToDivisibility` computes
exactly the arithmetic truncation `sats / 10^(8-d) * 10^(8-d)`. -/
theorem roundSats_eq_trunc (sats d : Nat) :
    roundSatsDownToDivisibility sats d = sats / 10 ^ (8 - d) * 10 ^ (8 - d) := by
  unfold roundSatsDownToDivisibility
  by_cases hv : isSatsDivisibilityValid sats d = true
  · rw [if_pos hv]
    rcases Nat.eq_zero_or_pos sats with h0 | hpos
    · subst h0; simp
    · exact (Nat.div_mul_cancel ((isSatsDivisibilityValid_iff sats d hpos).mp hv)).symm
  · rw [if_neg hv, Nat.ofDigits_append, ofDigits_replicate_zero,
      List.length_replicate, Nat.zero_add]
    rcases Nat.eq_zero_or_pos sats with h0 | hpos
    · subst h0
      have h00 : decStr 0 = [0] := rfl
      rw [h00, Nat.zero_div, Nat.zero_mul]
      rcases Nat.eq_zero_or_pos (8 - d) with hk | hk
      · rw [hk]; simp [Nat.ofDigits]
      · have h1 : (8 - d) = (8 - d - 1) + 1 := by omega
        rw [h1, List.drop_succ_cons, List.drop_nil]
        simp [Nat.ofDigits]
    · have hds : decStr sats = Nat.digits 10 sats := by
        unfold decStr
        rw [if_neg (by omega)]
        exact toBaseLE_eq_digits 10 sats (by norm_num)
      rw [hds, ofDigits_digits_drop 10 (by norm_num) (8 - d) sats]
      ring

/-- C10 counterexample: at `sats = 0`, `divisibility = 0`,
`roundSatsDownToDivisibility` returns `sats` unchanged (`0`) even though
`isSatsDivisibilityValid` is `false` (Python's `str(0) = "0"` does not end
with eight `'0'` characters), so "returns sats unchanged exactly when
isSatsDivisibilityValid holds" fails in the only-if direction. -/
theorem claim_C10_counterexample :
    roundSatsDownToDivisibility 0 0 = 0 ∧ isSatsDivisibilityValid 0 0 = false := by
  decide

/-- C10 (amended): for `0 ≤ d ≤ 8`, the decimal-string slicing equals the
arithmetic truncation `(sats / 10^(8-d)) * 10^(8-d)`; it returns `sats`
unchanged whenever `isSatsDivisibilityValid sats d` holds, and it returns
`sats` unchanged exactly when `10^(8-d)` divides `sats` (the "exactly when
valid" form of the original claim fails at `sats = 0`, where the result is
unchanged but validity is `false` for `d < 7`). -/
theorem claim_C10_roundSats (sats d : Nat) (hd : d ≤ 8) :
    roundSatsDownToDivisibility sats d = sats / 10 ^ (8 - d) * 10 ^ (8 - d) ∧
    (isSatsDivisibilityValid sats d = true →
      roundSatsDownToDivisibility sats d = sats) ∧
    (roundSatsDownToDivisibility sats d = sats ↔ 10 ^ (8 - d) ∣ sats) := by
  refine ⟨roundSats_eq_trunc sats d, ?_, ?_⟩
  · intro hv
    unfold roundSatsDownToDivisibility
    rw [if_pos hv]
  · rw [roundSats_eq_trunc]
    constructor
    · intro h
      refine ⟨sats / 10 ^ (8 - d), ?_⟩
      calc sats = sats / 10 ^ (8 - d) * 10 ^ (8 - d) := h.symm
        _ = 10 ^ (8 - d) * (sats / 10 ^ (8 - d)) := by ring
    · intro h
      exact Nat.div_mul_cancel h

theorem claim_C10_roundSats_witness :
    roundSatsDownToDivisibility 12345678 4 = 12345678 / 10 ^ (8 - 4) * 10 ^ (8 - 4) ∧
    (isSatsDivisibilityValid 12345678 4 = true →
      roundSatsDownToDivisibility 12345678 4 = 12345678) ∧
    (roundSatsDownToDivisibility 12345678 4 = 12345678 ↔ 10 ^ (8 - 4) ∣ 12345678) :=
  claim_C10_roundSats 12345678 4 (by decide)

theorem digits_length_le_of_lt_pow (b : Nat) (hb : 1 < b) (k : Nat) :
    ∀ n, n < b ^ k → (Nat.digits b n).length ≤ k := by
  induction k with
  | zero =>
    intro n hn
    rw [pow_zero] at hn
    interval_cases n
    simp
  | succ k ih =>
    intro n hn
    by_cases h0 : n = 0
    · subst h0; simp
    · rw [Nat.digits_def' hb (Nat.pos_of_ne_zero h0)]
      simp only [List.length_cons]
      have hdiv : n / b < b ^ k := by
        rw [Nat.div_lt_iff_lt_mul (by omega : 0 < b)]
        calc n < b ^ (k + 1) := hn
          _ = b ^ k * b := pow_succ b k
      exact Nat.succ_le_succ (ih (n / b) hdiv)

theorem ofDigits_pad8 (n : Nat) :
    Nat.ofDigits 256 (padHexStringTo8Bytes (intToLittleEndianHex n)) = n := by
  unfold padHexStringTo8Bytes
  rw [Nat.ofDigits_append, ofDigits_replicate_zero, Nat.mul_zero, Nat.add_zero]
  unfold intToLittleEndianHex
  by_cases h0 : n = 0
  · subst h0; simp [Nat.ofDigits]
  · rw [if_neg h0, toBaseLE_eq_digits 256 n (by norm_num), Nat.ofDigits_digits]

theorem pad8_length (n : Nat) (hn : n < 256 ^ 8) :
    (padHexStringTo8Bytes (intToLittleEndianHex n)).length = 8 := by
  unfold padHexStringTo8Bytes intToLittleEndianHex
  have hlen : (if n = 0 then [0] else toBaseLE 256 n).length ≤ 8 := by
    by_cases h0 : n = 0
    · simp [h0]
    · rw [if_neg h0, toBaseLE_eq_digits 256 n (by norm_num)]
      exact digits_length_le_of_lt_pow 256 (by norm_num) 8 n hn
  rw [List.length_append, List.length_replicate]
  omega

theorem decode_encodeAssetTag (currency : String) (asset : List Nat)
    (amountSats : Nat) (hcur : currency = "rvn" ∨ currency = "evr")
    (hamt : amountSats < 256 ^ 8) :
    ∃ e, encodeAssetTag currency asset amountSats = some e ∧
      decodeAssetTag e = some (currency, asset, amountSats) := by
  have hrest :
      decodeAssetTag (0x72 :: 0x76 :: 0x6e :: 0x74 :: asset.length ::
          (asset ++ padHexStringTo8Bytes (intToLittleEndianHex amountSats))) =
        some ("rvn", asset, amountSats) ∧
      decodeAssetTag (0x65 :: 0x76 :: 0x72 :: 0x74 :: asset.length ::
          (asset ++ padHexStringTo8Bytes (intToLittleEndianHex amountSats))) =
        some ("evr", asset, amountSats) := by
    have hlen : (asset ++ padHexStringTo8Bytes (intToLittleEndianHex amountSats)).length
        = asset.length + 8 := by
      rw [List.length_append, pad8_length amountSats hamt]
    constructor <;>
    · simp only [decodeAssetTag, if_pos rfl, hlen]
      norm_num
      exact ofDigits_pad8 amountSats
  rcases hcur with hc | hc <;> subst hc
  · refine ⟨_, rfl, ?_⟩
    simpa [encodeAssetTag, satoriHex] using hrest.1
  · refine ⟨_, rfl, ?_⟩
    simpa [encodeAssetTag, satoriHex] using hrest.2

/-- C3: the asset-tag layout round-trips — for both currency symbols, any
asset-name byte list representable by the one-byte length field, and any
`amountSats` in the 8-byte range (including `0` and values needing full
little-endian padding), decoding the encoded tag recovers exactly
`(symbol, name, amountSats)`; consequently the encoder is injective on
this domain. -/
theorem claim_C3_assetTag_roundtrip (currency : String) (asset : List Nat)
    (amountSats : Nat) (hcur : currency = "rvn" ∨ currency = "evr")
    (hlen : asset.length ≤ 255) (hamt : amountSats < 256 ^ 8) :
    (∃ e, encodeAssetTag currency asset amountSats = some e ∧
      decodeAssetTag e = some (currency, asset, amountSats)) ∧
    (∀ c2 a2 n2, (c2 = "rvn" ∨ c2 = "evr") → n2 < 256 ^ 8 →
      encodeAssetTag currency asset amountSats = encodeAssetTag c2 a2 n2 →
      currency = c2 ∧ asset = a2 ∧ amountSats = n2) := by
  refine ⟨decode_encodeAssetTag currency asset amountSats hcur hamt, ?_⟩
  intro c2 a2 n2 hc2 hn2 heq
  obtain ⟨e1, he1, hd1⟩ := decode_encodeAssetTag currency asset amountSats hcur hamt
  obtain ⟨e2, he2, hd2⟩ := decode_encodeAssetTag c2 a2 n2 hc2 hn2
  rw [heq, he2] at he1
  obtain rfl : e2 = e1 := by injection he1
  rw [hd1] at hd2
  simp only [Option.some.injEq, Prod.mk.injEq] at hd2
  exact ⟨hd2.1, hd2.2.1, hd2.2.2⟩

theorem claim_C3_assetTag_roundtrip_witness :
    (∃ e, encodeAssetTag "evr" satoriAssetName 100000000 = some e ∧
      decodeAssetTag e = some ("evr", satoriAssetName, 100000000)) ∧
    (∀ c2 a2 n2, (c2 = "rvn" ∨ c2 = "evr") → n2 < 256 ^ 8 →
      encodeAssetTag "evr" satoriAssetName 100000000 = encodeAssetTag c2 a2 n2 →
      "evr" = c2 ∧ satoriAssetName = a2 ∧ 100000000 = n2) :=
  claim_C3_assetTag_roundtrip "evr" satoriAssetName 100000000
    (Or.inr rfl) (by decide) (by norm_num)

theorem gatherPass_spec (ic oc fr sats : Nat) :
    ∀ (remaining : List Nat) (g : Nat) (acc : List Nat),
      ∃ l d, gatherPass ic oc fr sats remaining g acc = (acc ++ l, g + l.sum, d) ∧
        l.Sublist remaining ∧
        (d = false →
          sats + estimatedFee (ic + (acc ++ l).length) oc fr ≤ g + l.sum) ∧
        (d = true → l = remaining ∧
          g + l.sum < sats + estimatedFee (ic + (acc ++ l).length) oc fr) := by
  intro remaining
  induction remaining with
  | nil =>
    intro g acc
    by_cases h : g < sats + estimatedFee (ic + acc.length) oc fr
    · refine ⟨[], true, ?_, List.Sublist.refl [], ?_, ?_⟩
      · unfold gatherPass
        rw [if_pos h]
        simp
      · intro hfalse; exact absurd hfalse (by simp)
      · intro _; refine ⟨rfl, ?_⟩; simpa using h
    · refine ⟨[], false, ?_, List.Sublist.refl [], ?_, ?_⟩
      · unfold gatherPass
        rw [if_neg h]
        simp
      · intro _; simpa using Nat.le_of_not_lt h
      · intro htrue; exact absurd htrue (by simp)
  | cons x rest ih =>
    intro g acc
    by_cases h : g < sats + estimatedFee (ic + acc.length) oc fr
    · obtain ⟨l, d, heq, hsub, hfalse, htrue⟩ := ih (g + x) (acc ++ [x])
      have h1 : (acc ++ [x]) ++ l = acc ++ x :: l := by simp
      have h2 : g + x + l.sum = g + (x :: l).sum := by
        simp only [List.sum_cons]
        omega
      refine ⟨x :: l, d, ?_, List.Sublist.cons₂ x hsub, ?_, ?_⟩
      · unfold gatherPass
        rw [if_pos h, heq, h1, h2]
      · intro hd
        have hle := hfalse hd
        rw [h1, h2] at hle
        exact hle
      · intro hd
        obtain ⟨hl, hb⟩ := htrue hd
        rw [h1, h2] at hb
        exact ⟨by rw [hl], hb⟩
    · refine ⟨[], false, ?_, List.nil_sublist _, ?_, ?_⟩
      · unfold gatherPass
        rw [if_neg h]
        simp
      · intro _; simpa using Nat.le_of_not_lt h
      · intro htrue; exact absurd htrue (by simp)

/-- C4: `_gatherCurrencyUnspents` (a) raises its InsufficientFunds
`TransactionFailure` exactly when the positive-value pool total is below
`sats + reserve`; (b) otherwise it terminates with some sub-multiset of
the pool whose reported total is its sum, and that total either meets
`sats` plus the re-evaluated fee for the selected input count or the
whole pool was taken (the maximal reachable total, via the descending
fallback); (c) when the pool total also covers `sats` plus the fee at the
full input count, the returned total always meets the re-evaluated
threshold. -/
theorem claim_C4_gatherCurrency (reserve ic oc fr sats : Nat)
    (unspent : List Nat) :
    ((∃ e, gatherCurrencyUnspents reserve ic oc fr sats unspent = .error e) ↔
      (unspent.filter (fun x => 0 < x)).sum < sats + reserve) ∧
    (sats + reserve ≤ (unspent.filter (fun x => 0 < x)).sum →
      ∃ l tot, gatherCurrencyUnspents reserve ic oc fr sats unspent = .ok (l, tot) ∧
        tot = l.sum ∧ l.Subperm (unspent.filter (fun x => 0 < x)) ∧
        (sats + estimatedFee (ic + l.length) oc fr ≤ tot ∨
          l.Perm (unspent.filter (fun x => 0 < x)))) ∧
    (sats + reserve ≤ (unspent.filter (fun x => 0 < x)).sum →
      sats + estimatedFee (ic + (unspent.filter (fun x => 0 < x)).length) oc fr ≤
        (unspent.filter (fun x => 0 < x)).sum →
      ∃ l tot, gatherCurrencyUnspents reserve ic oc fr sats unspent = .ok (l, tot) ∧
        tot = l.sum ∧ l.Subperm (unspent.filter (fun x => 0 < x)) ∧
        sats + estimatedFee (ic + l.length) oc fr ≤ tot) := by
  set pos := unspent.filter (fun x => 0 < x) with hpos
  set sorted := List.insertionSort (· ≤ ·) pos with hsorted
  have hperm : sorted.Perm pos := List.perm_insertionSort (· ≤ ·) pos
  have hsum : sorted.sum = pos.sum := hperm.sum_eq
  have hlen : sorted.length = pos.length := hperm.length_eq
  by_cases hres : sorted.sum < sats + reserve
  · have herr : gatherCurrencyUnspents reserve ic oc fr sats unspent =
        .error .insufficientReserve := by
      simp only [gatherCurrencyUnspents]
      rw [← hpos, ← hsorted, if_pos hres]
    refine ⟨⟨fun _ => hsum ▸ hres, fun _ => ⟨_, herr⟩⟩, ?_, ?_⟩
    · intro hge; omega
    · intro hge _; omega
  · obtain ⟨l, d, heq, hsub, hfalse, htrue⟩ := gatherPass_spec ic oc fr sats sorted 0 []
    simp only [List.nil_append, Nat.zero_add] at heq hfalse htrue
    have hok : ∃ l2 tot, gatherCurrencyUnspents reserve ic oc fr sats unspent = .ok (l2, tot) ∧
        tot = l2.sum ∧ l2.Subperm pos ∧
        (sats + estimatedFee (ic + l2.length) oc fr ≤ tot ∨ l2.Perm pos) ∧
        (sats + estimatedFee (ic + pos.length) oc fr ≤ pos.sum →
          sats + estimatedFee (ic + l2.length) oc fr ≤ tot) := by
      cases d with
      | false =>
        refine ⟨l, l.sum, ?_, rfl, (hsub.subperm).trans hperm.subperm, ?_, ?_⟩
        · simp only [gatherCurrencyUnspents]
          rw [← hpos, ← hsorted, if_neg hres]
          simp only [heq]
        · exact Or.inl (hfalse rfl)
        · intro _; exact hfalse rfl
      | true =>
        obtain ⟨hl, hb⟩ := htrue rfl
        subst hl
        obtain ⟨l2, d2, heq2, hsub2, hfalse2, htrue2⟩ :=
          gatherPass_spec ic oc fr sats sorted.reverse 0 []
        simp only [List.nil_append, Nat.zero_add] at heq2 hfalse2 htrue2
        have hrun : gatherCurrencyUnspents reserve ic oc fr sats unspent = .ok (l2, l2.sum) := by
          simp only [gatherCurrencyUnspents]
          rw [← hpos, ← hsorted, if_neg hres]
          simp only [heq]
          rw [heq2]
        have hsubp : l2.Subperm pos :=
          (hsub2.subperm).trans ((List.reverse_perm sorted).trans hperm).subperm
        cases d2 with
        | false =>
          exact ⟨l2, l2.sum, hrun, rfl, hsubp, Or.inl (hfalse2 rfl), fun _ => hfalse2 rfl⟩
        | true =>
          obtain ⟨hl2, hb2⟩ := htrue2 rfl
          subst hl2
          refine ⟨sorted.reverse, sorted.reverse.sum, hrun, rfl, hsubp,
            Or.inr ((List.reverse_perm sorted).trans hperm), ?_⟩
          intro hfee
          exfalso
          have h1 : sorted.reverse.sum = pos.sum := by
            rw [List.sum_reverse, hsum]
          have h2 : sorted.reverse.length = pos.length := by
            rw [List.length_reverse, hlen]
          rw [h1, h2] at hb2
          omega
    obtain ⟨l2, tot, hrun, htot, hsubp, hdisj, hfee⟩ := hok
    refine ⟨⟨?_, ?_⟩, ?_, ?_⟩
    · intro ⟨e, he⟩
      rw [hrun] at he
      exact absurd he (by simp)
    · intro hlt; omega
    · intro _; exact ⟨l2, tot, hrun, htot, hsubp, hdisj⟩
    · intro _ hf; exact ⟨l2, tot, hrun, htot, hsubp, hfee hf⟩

theorem claim_C4_gatherCurrency_witness :
    ∃ l tot, gatherCurrencyUnspents 0 0 1 100 1200 [500, 1000, 2000] = .ok (l, tot) ∧
      tot = l.sum ∧ l.Subperm ([500, 1000, 2000].filter (fun x => 0 < x)) ∧
      1200 + estimatedFee (0 + l.length) 1 100 ≤ tot :=
  (claim_C4_gatherCurrency 0 0 1 100 1200 [500, 1000, 2000]).2.2
    (by decide) (by decide)

/-- C5: the concrete coin-selection scenario — pool `[500, 1000, 2000]`,
target `1200`, per-item fee rate `100`: ascending selection takes `500`
then `1000`, stopping at total `1500 = 1200 + estimatedFee 2 1 100`. -/
theorem claim_C5_selection_example :
    gatherCurrencyUnspents 0 0 1 100 1200 [500, 1000, 2000] =
      .ok ([500, 1000], 1500) := by
  rfl

/-- C6 counterexample: at `fundingValue = 1000`, `payToReceiverSats = 1000`
(`remainder = 0`), `txFeeSats = 1000`, the claim predicts a single output
paying `fundingValue − 2·txFeeSats = −1000`, but the code raises
(`Fee exceeds available funds`) because the payable amount is not
positive. -/
theorem claim_C6_counterexample :
    generateCommitmentTx 1000 1000 1000 1 true = .error .feeExceedsFunds ∧
    (1000 : Int) - 1000 = 0 ∧
    ¬ generateCommitmentTx 1000 1000 1000 1 true =
        .ok [((1000 : Int) - 2 * 1000, .receiver)] := by
  refine ⟨by rfl, by norm_num, ?_⟩
  intro h
  rw [show generateCommitmentTx 1000 1000 1000 1 true = .error .feeExceedsFunds from rfl] at h
  exact Except.noConfusion h

/-- C6 (amended): with `remainder = fundingValue − payToReceiverSats` and
`dustThreshold = txFeeSats · 3 · dustThresholdMultiple`: if
`remainder = 0` or `remainder < dustThreshold`, then when
`remainder > 0 ∧ respectDustZone` the builder raises DustZoneError, and
otherwise it pays the receiver `fundingValue − 2·txFeeSats` in a single
output *provided that amount is positive* (raising otherwise); else it
emits exactly the two outputs `payToReceiverSats` to the receiver and
`remainder − 3·txFeeSats` back to the channel script *provided the change
is positive* (raising otherwise).  The concrete scenario
`1,000,000 / 500,000 / 1,000 / 1` yields `500,000` and `497,000`. -/
theorem claim_C6_commitment (f p fee m : Int) (respect : Bool)
    (hfee : 0 < fee) (hp : 0 < p) (hpf : p ≤ f) :
    ((f - p = 0 ∨ f - p < fee * 3 * m) →
      ((f - p > 0 ∧ respect = true) →
        generateCommitmentTx f p fee m respect = .error .dustZone) ∧
      (¬(f - p > 0 ∧ respect = true) →
        (0 < f - fee * 2 →
          generateCommitmentTx f p fee m respect = .ok [(f - fee * 2, .receiver)]) ∧
        (f - fee * 2 ≤ 0 →
          generateCommitmentTx f p fee m respect = .error .feeExceedsFunds))) ∧
    (¬(f - p = 0 ∨ f - p < fee * 3 * m) →
      (0 < f - p - fee * 3 →
        generateCommitmentTx f p fee m respect =
          .ok [(p, .receiver), (f - p - fee * 3, .channel)]) ∧
      (f - p - fee * 3 ≤ 0 →
        generateCommitmentTx f p fee m respect = .error .feeExceedsRemainder)) ∧
    generateCommitmentTx 1000000 500000 1000 1 true =
      .ok [(500000, .receiver), (497000, .channel)] := by
  have hnotfee : ¬ fee ≤ 0 := by omega
  have hok : ¬¬(0 < p ∧ p ≤ f) := by omega
  refine ⟨?_, ?_, by rfl⟩
  · intro hdust
    constructor
    · intro hz
      simp only [generateCommitmentTx, if_neg hnotfee, if_neg hok, if_pos hdust, if_pos hz]
    · intro hz
      constructor
      · intro hpos
        simp only [generateCommitmentTx, if_neg hnotfee, if_neg hok, if_pos hdust,
          if_neg hz, if_neg (by omega : ¬ f - fee * 2 ≤ 0)]
      · intro hneg
        simp only [generateCommitmentTx, if_neg hnotfee, if_neg hok, if_pos hdust,
          if_neg hz, if_pos hneg]
  · intro hdust
    constructor
    · intro hpos
      simp only [generateCommitmentTx, if_neg hnotfee, if_neg hok, if_neg hdust,
        if_neg (by omega : ¬ f - p - fee * 3 ≤ 0)]
    · intro hneg
      simp only [generateCommitmentTx, if_neg hnotfee, if_neg hok, if_neg hdust,
        if_pos hneg]

theorem claim_C6_commitment_witness :
    (((1000000 : Int) - 500000 = 0 ∨ (1000000 : Int) - 500000 < 1000 * 3 * 1) →
      (((1000000 : Int) - 500000 > 0 ∧ true = true) →
        generateCommitmentTx 1000000 500000 1000 1 true = .error .dustZone) ∧
      (¬((1000000 : Int) - 500000 > 0 ∧ true = true) →
        (0 < (1000000 : Int) - 1000 * 2 →
          generateCommitmentTx 1000000 500000 1000 1 true =
            .ok [((1000000 : Int) - 1000 * 2, .receiver)]) ∧
        ((1000000 : Int) - 1000 * 2 ≤ 0 →
          generateCommitmentTx 1000000 500000 1000 1 true = .error .feeExceedsFunds))) ∧
    (¬((1000000 : Int) - 500000 = 0 ∨ (1000000 : Int) - 500000 < 1000 * 3 * 1) →
      (0 < (1000000 : Int) - 500000 - 1000 * 3 →
        generateCommitmentTx 1000000 500000 1000 1 true =
          .ok [(500000, .receiver), ((1000000 : Int) - 500000 - 1000 * 3, .channel)]) ∧
      ((1000000 : Int) - 500000 - 1000 * 3 ≤ 0 →
        generateCommitmentTx 1000000 500000 1000 1 true = .error .feeExceedsRemainder)) ∧
    generateCommitmentTx 1000000 500000 1000 1 true =
      .ok [(500000, .receiver), (497000, .channel)] :=
  claim_C6_commitment 1000000 500000 1000 1 true
    (by norm_num) (by norm_num) (by norm_num)

/-- C7: renewable channels accept a raw block count exactly in
`[1, 65535]` and push it as-is before CHECKSEQUENCEVERIFY; an accepted
minutes value is converted to 512-second units with minimum 1, the
16-bit mask is the identity on the accepted range (units stay ≤ 65535),
and the pushed value is `0x00400000 ||| units`; non-renewable channels
push before CHECKLOCKTIMEVERIFY, require a strictly positive block
height, and reject every timestamp below 500,000,000 (as ambiguous
whenever it is otherwise positive). -/
theorem claim_C7_channel_timeouts (s r : List Nat) (b m ts : Int) :
    ((1 ≤ b ∧ b ≤ 65535) →
      renewableLightChannel s r (some b) none =
        .ok (channelScriptBody s r b .opCSV)) ∧
    (¬(1 ≤ b ∧ b ≤ 65535) →
      renewableLightChannel s r (some b) none = .error .blocksOutOfRange) ∧
    ((1 ≤ m ∧ m ≤ 557047) →
      max (m.toNat * 60 / 512) 1 &&& 0xFFFF = max (m.toNat * 60 / 512) 1 ∧
      max (m.toNat * 60 / 512) 1 ≤ 65535 ∧
      renewableLightChannel s r none (some m) =
        .ok (channelScriptBody s r
          (Int.ofNat (0x00400000 ||| max (m.toNat * 60 / 512) 1)) .opCSV)) ∧
    (0 < b →
      nonrenewableLightChannel s r (some b) none =
        .ok (channelScriptBody s r b .opCLTV)) ∧
    (b ≤ 0 →
      nonrenewableLightChannel s r (some b) none = .error .blocksNotPositive) ∧
    (ts < 500000000 → ∃ e, nonrenewableLightChannel s r none (some ts) = .error e) ∧
    (0 < ts → ts < 500000000 →
      nonrenewableLightChannel s r none (some ts) = .error .timestampAmbiguous) ∧
    (500000000 ≤ ts →
      nonrenewableLightChannel s r none (some ts) =
        .ok (channelScriptBody s r ts .opCLTV)) := by
  have hmask : ∀ u : Nat, u ≤ 65535 → u &&& 0xFFFF = u := by
    intro u hu
    have h16 : (0xFFFF : Nat) = 2 ^ 16 - 1 := by norm_num
    rw [h16]
    exact Nat.and_pow_two_sub_one_of_lt_two_pow (by omega)
  refine ⟨?_, ?_, ?_, ?_, ?_, ?_, ?_, ?_⟩
  · intro h
    simp only [renewableLightChannel, if_neg (not_not_intro h)]
  · intro h
    simp only [renewableLightChannel, if_pos h]
  · intro h
    have h60 : m.toNat * 60 ≤ 33422820 := by omega
    have hdivb : m.toNat * 60 / 512 ≤ 33422820 / 512 := Nat.div_le_div_right h60
    have hu : max (m.toNat * 60 / 512) 1 ≤ 65535 := by
      have hc : (33422820 : Nat) / 512 ≤ 65535 := by norm_num
      omega
    refine ⟨hmask _ hu, hu, ?_⟩
    simp only [renewableLightChannel, if_neg (not_not_intro h)]
    have hif : (if m.toNat * 60 / 512 < 1 then 1 else m.toNat * 60 / 512) =
        max (m.toNat * 60 / 512) 1 := by
      by_cases hlt : m.toNat * 60 / 512 < 1
      · rw [if_pos hlt]; omega
      · rw [if_neg hlt]; omega
    rw [hif, hmask _ hu]
  · intro h
    simp only [nonrenewableLightChannel, if_neg (by omega : ¬ b ≤ 0)]
  · intro h
    simp only [nonrenewableLightChannel, if_pos h]
  · intro h
    by_cases hz : ts ≤ 0
    · exact ⟨.timestampNotPositive, by simp only [nonrenewableLightChannel, if_pos hz]⟩
    · exact ⟨.timestampAmbiguous,
        by simp only [nonrenewableLightChannel, if_neg hz, if_pos h]⟩
  · intro h0 h
    simp only [nonrenewableLightChannel, if_neg (by omega : ¬ ts ≤ 0), if_pos h]
  · intro h
    simp only [nonrenewableLightChannel, if_neg (by omega : ¬ ts ≤ 0),
      if_neg (by omega : ¬ ts < 500000000)]

theorem claim_C7_channel_timeouts_witness :
    ((1 ≤ (100 : Int) ∧ (100 : Int) ≤ 65535) →
      renewableLightChannel [1] [2] (some 100) none =
        .ok (channelScriptBody [1] [2] 100 .opCSV)) ∧
    (¬(1 ≤ (100 : Int) ∧ (100 : Int) ≤ 65535) →
      renewableLightChannel [1] [2] (some 100) none = .error .blocksOutOfRange) ∧
    ((1 ≤ (1440 : Int) ∧ (1440 : Int) ≤ 557047) →
      max ((1440 : Int).toNat * 60 / 512) 1 &&& 0xFFFF =
        max ((1440 : Int).toNat * 60 / 512) 1 ∧
      max ((1440 : Int).toNat * 60 / 512) 1 ≤ 65535 ∧
      renewableLightChannel [1] [2] none (some 1440) =
        .ok (channelScriptBody [1] [2]
          (Int.ofNat (0x00400000 ||| max ((1440 : Int).toNat * 60 / 512) 1)) .opCSV)) ∧
    (0 < (100 : Int) →
      nonrenewableLightChannel [1] [2] (some 100) none =
        .ok (channelScriptBody [1] [2] 100 .opCLTV)) ∧
    ((100 : Int) ≤ 0 →
      nonrenewableLightChannel [1] [2] (some 100) none = .error .blocksNotPositive) ∧
    ((400000000 : Int) < 500000000 →
      ∃ e, nonrenewableLightChannel [1] [2] none (some 400000000) = .error e) ∧
    (0 < (400000000 : Int) → (400000000 : Int) < 500000000 →
      nonrenewableLightChannel [1] [2] none (some 400000000) =
        .error .timestampAmbiguous) ∧
    ((500000000 : Int) ≤ 400000000 →
      nonrenewableLightChannel [1] [2] none (some 400000000) =
        .ok (channelScriptBody [1] [2] 400000000 .opCLTV)) :=
  claim_C7_channel_timeouts [1] [2] 100 1440 400000000

/-- C8 counterexample: an 80-byte memo is *silently dropped*
(`_compileMemoOutput` returns `None`, exactly as for an absent memo, and
its callers filter the `None` out of the output list) — it is not a
`ScriptConstructionError` condition as the claim states; the codomain of
the embedded function records that no exception path exists. -/
theorem claim_C8_counterexample :
    compileMemoOutput (some (List.replicate 80 48)) = none ∧
    compileMemoOutput none = none := by
  constructor
  · rfl
  · rfl

/-- C8 (amended): a null-data output is emitted exactly when the memo is
present with `4 < length < 80`; an empty or absent memo, and equally any
out-of-range memo, yields no output at all — the memo is never truncated
and never emitted out of range, but no error is raised either (the
out-of-range memo is silently omitted). -/
theorem claim_C8_memo (m : List Nat) :
    ((4 < m.length ∧ m.length < 80) →
      compileMemoOutput (some m) = some (0, [.op .opReturn, .data m])) ∧
    ((m.length ≤ 4 ∨ 80 ≤ m.length) → compileMemoOutput (some m) = none) ∧
    compileMemoOutput none = none ∧
    (∀ out, compileMemoOutput (some m) = some out →
      out = (0, [.op .opReturn, .data m])) := by
  refine ⟨?_, ?_, rfl, ?_⟩
  · intro h
    have hne : m ≠ [] := by
      intro he
      rw [he] at h
      simp at h
    simp only [compileMemoOutput, if_pos (⟨hne, h.1, h.2⟩ : _ ∧ _ ∧ _)]
  · intro h
    have : ¬(m ≠ [] ∧ 4 < m.length ∧ m.length < 80) := by
      rintro ⟨_, h1, h2⟩
      omega
    simp only [compileMemoOutput, if_neg this]
  · intro out hout
    simp only [compileMemoOutput] at hout
    by_cases hc : m ≠ [] ∧ 4 < m.length ∧ m.length < 80
    · rw [if_pos hc] at hout
      exact (Option.some.injEq .. ▸ hout).symm
    · rw [if_neg hc] at hout
      exact absurd hout (by simp)

theorem claim_C8_memo_witness :
    ((4 < (List.replicate 10 48).length ∧ (List.replicate 10 48).length < 80) →
      compileMemoOutput (some (List.replicate 10 48)) =
        some (0, [.op .opReturn, .data (List.replicate 10 48)])) ∧
    (((List.replicate 10 48).length ≤ 4 ∨ 80 ≤ (List.replicate 10 48).length) →
      compileMemoOutput (some (List.replicate 10 48)) = none) ∧
    compileMemoOutput none = none ∧
    (∀ out, compileMemoOutput (some (List.replicate 10 48)) = some out →
      out = (0, [.op .opReturn, .data (List.replicate 10 48)])) :=
  claim_C8_memo (List.replicate 10 48)

theorem negGet_isSome {α : Type} (l : List α) (k : Nat) (h1 : 1 ≤ k)
    (h2 : k ≤ l.length) : ∃ a, negGet l k = some a := by
  unfold negGet
  rw [if_pos ⟨h1, h2⟩]
  have hlt : l.length - k < l.length := by omega
  exact ⟨l.get ⟨l.length - k, hlt⟩, List.get?_eq_get hlt⟩

theorem scriptAddrMatches_iff (h160ToAddr : List Nat → String)
    (script : List ScriptElem) (addr : String) :
    scriptAddrMatches h160ToAddr script addr = true ↔
      ∃ bts, script.get? 2 = some (.data bts) ∧ addr = h160ToAddr bts := by
  unfold scriptAddrMatches
  cases hg : script.get? 2 with
  | none => simp
  | some el =>
    cases el with
    | op o => simp
    | num n => simp
    | data b => simp [beq_iff_eq]

theorem verifyFee_iff (bridge : Bool) (tx : TxM) (F rep : Int)
    (hlen : (if bridge then 2 else 1) ≤ tx.vout.length) :
    verifyFee bridge tx F rep = .ok true ↔
      (rep < 100000000 ∧ rep < F ∧
        ∃ chg, negGet tx.vout (if bridge then 2 else 1) = some chg ∧
          chg.nValue = F - rep) := by
  obtain ⟨chg, hchg⟩ := negGet_isSome tx.vout (if bridge then 2 else 1)
    (by cases bridge <;> norm_num) hlen
  unfold verifyFee
  by_cases h1 : rep < 100000000
  · by_cases h2 : rep < F
    · simp only [if_pos h1, if_pos h2, hchg]
      constructor
      · intro h
        have hb : (chg.nValue == F - rep) = true := by injection h
        exact ⟨h1, h2, chg, rfl, by rwa [beq_iff_eq] at hb⟩
      · rintro ⟨-, -, chg2, hchg2, hval⟩
        obtain rfl : chg = chg2 := by injection hchg2
        simp [hval]
    · rw [if_pos h1, if_neg h2]
      constructor
      · intro h
        exact absurd h (by simp)
      · rintro ⟨-, h2', -⟩
        exact absurd h2' h2
  · rw [if_neg h1]
    constructor
    · intro h
      exact absurd h (by simp)
    · rintro ⟨h1', -, -⟩
      exact absurd h1' h1

theorem verifyFee_not_error (bridge : Bool) (tx : TxM) (F rep : Int)
    (hlen : (if bridge then 2 else 1) ≤ tx.vout.length) (e : CompleterErr) :
    verifyFee bridge tx F rep ≠ .error e := by
  obtain ⟨chg, hchg⟩ := negGet_isSome tx.vout (if bridge then 2 else 1)
    (by cases bridge <;> norm_num) hlen
  unfold verifyFee
  by_cases h1 : rep < 100000000
  · by_cases h2 : rep < F
    · simp [if_pos h1, if_pos h2, hchg]
    · simp [if_pos h1, if_neg h2]
  · simp [if_neg h1]

theorem checkFlag_cons_iff (amt : Nat) (x : TxOutM) (rest : List TxOutM)
    (flag b : Bool) (hb : checkSatoriValue amt x = some b) :
    ((flag || b) = true ∨ ∃ o ∈ rest, checkSatoriValue amt o = some true) ↔
      (flag = true ∨ ∃ o ∈ x :: rest, checkSatoriValue amt o = some true) := by
  cases b with
  | true =>
    simp only [Bool.or_true]
    constructor
    · intro _; exact Or.inr ⟨x, List.mem_cons_self x rest, hb⟩
    · intro _; exact Or.inl trivial
  | false =>
    simp only [Bool.or_false]
    constructor
    · rintro (h | ⟨o, ho, hco⟩)
      · exact Or.inl h
      · exact Or.inr ⟨o, List.mem_cons_of_mem x ho, hco⟩
    · rintro (h | ⟨o, ho, hco⟩)
      · exact Or.inl h
      · rcases List.mem_cons.mp ho with rfl | ho2
        · rw [hb] at hco
          exact absurd hco (by simp)
        · exact Or.inr ⟨o, ho2, hco⟩

theorem verifyClaimLoop_spec (mundo : Nat) :
    ∀ (l : List TxOutM) (acc : Bool),
      (∀ x ∈ l, checkSatoriValue mundo x ≠ none) →
      (∀ e, verifyClaimLoop mundo l acc ≠ .error e) ∧
      (verifyClaimLoop mundo l acc = .ok true ↔
        acc = true ∨ ∃ o ∈ l, checkSatoriValue mundo o = some true) := by
  intro l
  induction l with
  | nil =>
    intro acc _
    refine ⟨fun e h => by simp [verifyClaimLoop] at h, ?_⟩
    simp [verifyClaimLoop]
  | cons x rest ih =>
    intro acc hscan
    have hx : checkSatoriValue mundo x ≠ none := hscan x (List.mem_cons_self x rest)
    obtain ⟨b, hb⟩ : ∃ b, checkSatoriValue mundo x = some b := by
      cases hcv : checkSatoriValue mundo x with
      | none => exact absurd hcv hx
      | some b => exact ⟨b, rfl⟩
    have hrest : ∀ y ∈ rest, checkSatoriValue mundo y ≠ none :=
      fun y hy => hscan y (List.mem_cons_of_mem x hy)
    obtain ⟨ihe, ihi⟩ := ih (acc || b) hrest
    have hstep : verifyClaimLoop mundo (x :: rest) acc =
        verifyClaimLoop mundo rest (acc || b) := by
      simp only [verifyClaimLoop, hb]
    constructor
    · intro e
      rw [hstep]
      exact ihe e
    · rw [hstep, ihi]
      exact checkFlag_cons_iff mundo x rest acc b hb

theorem verifyClaimLoopBridge_spec (mundo bridgeFee : Nat) :
    ∀ (l : List TxOutM) (bp mp : Bool),
      (∀ x ∈ l, checkSatoriValue bridgeFee x ≠ none ∧
        checkSatoriValue mundo x ≠ none) →
      (∀ e, verifyClaimLoopBridge mundo bridgeFee l bp mp ≠ .error e) ∧
      (verifyClaimLoopBridge mundo bridgeFee l bp mp = .ok true ↔
        (bp = true ∨ ∃ o ∈ l, checkSatoriValue bridgeFee o = some true) ∧
        (mp = true ∨ ∃ o ∈ l, checkSatoriValue mundo o = some true)) := by
  intro l
  induction l with
  | nil =>
    intro bp mp _
    refine ⟨fun e h => by simp [verifyClaimLoopBridge] at h, ?_⟩
    simp [verifyClaimLoopBridge, Bool.and_eq_true]
  | cons x rest ih =>
    intro bp mp hscan
    obtain ⟨hx1, hx2⟩ := hscan x (List.mem_cons_self x rest)
    obtain ⟨b1, hb1⟩ : ∃ b, checkSatoriValue bridgeFee x = some b := by
      cases hcv : checkSatoriValue bridgeFee x with
      | none => exact absurd hcv hx1
      | some b => exact ⟨b, rfl⟩
    obtain ⟨b2, hb2⟩ : ∃ b, checkSatoriValue mundo x = some b := by
      cases hcv : checkSatoriValue mundo x with
      | none => exact absurd hcv hx2
      | some b => exact ⟨b, rfl⟩
    have hrest : ∀ y ∈ rest, checkSatoriValue bridgeFee y ≠ none ∧
        checkSatoriValue mundo y ≠ none :=
      fun y hy => hscan y (List.mem_cons_of_mem x hy)
    obtain ⟨ihe, ihi⟩ := ih (bp || b1) (mp || b2) hrest
    have hstep : verifyClaimLoopBridge mundo bridgeFee (x :: rest) bp mp =
        verifyClaimLoopBridge mundo bridgeFee rest (bp || b1) (mp || b2) := by
      simp only [verifyClaimLoopBridge, hb1, hb2]
    constructor
    · intro e
      rw [hstep]
      exact ihe e
    · rw [hstep, ihi,
        checkFlag_cons_iff bridgeFee x rest bp b1 hb1,
        checkFlag_cons_iff mundo x rest mp b2 hb2]

theorem verifyClaimLoop_crash (mundo : Nat) :
    ∀ (l : List TxOutM) (acc : Bool),
      (∃ x ∈ l, checkSatoriValue mundo x = none) →
      verifyClaimLoop mundo l acc = .error .attributeError := by
  intro l
  induction l with
  | nil =>
    rintro acc ⟨x, hx, -⟩
    exact absurd hx (List.not_mem_nil x)
  | cons x rest ih =>
    rintro acc ⟨y, hy, hcy⟩
    cases hcx : checkSatoriValue mundo x with
    | none => simp only [verifyClaimLoop, hcx]
    | some b =>
      have hyr : y ∈ rest := by
        rcases List.mem_cons.mp hy with rfl | h
        · rw [hcx] at hcy
          exact absurd hcy (by simp)
        · exact h
      simp only [verifyClaimLoop, hcx]
      exact ih (acc || b) ⟨y, hyr, hcy⟩

theorem verifyClaim_iff (bridge : Bool) (tx : TxM) (mundo bridgeFee : Nat)
    (hscan : ∀ o ∈ tx.vout, checkSatoriValue mundo o ≠ none ∧
      (bridge = true → checkSatoriValue bridgeFee o ≠ none)) :
    verifyClaim bridge tx mundo bridgeFee = .ok true ↔
      ((∃ o ∈ tx.vout, checkSatoriValue mundo o = some true) ∧
        (bridge = true → ∃ o ∈ tx.vout, checkSatoriValue bridgeFee o = some true)) := by
  cases bridge with
  | false =>
    unfold verifyClaim
    rw [if_neg (by simp : ¬ (false = true))]
    obtain ⟨-, hiff⟩ := verifyClaimLoop_spec mundo tx.vout false
      (fun o ho => (hscan o ho).1)
    rw [hiff]
    constructor
    · rintro (h | h)
      · exact absurd h (by simp)
      · exact ⟨h, fun hf => absurd hf (by simp)⟩
    · rintro ⟨h, -⟩
      exact Or.inr h
  | true =>
    unfold verifyClaim
    rw [if_pos rfl]
    obtain ⟨-, hiff⟩ := verifyClaimLoopBridge_spec mundo bridgeFee tx.vout false false
      (fun o ho => ⟨(hscan o ho).2 rfl, (hscan o ho).1⟩)
    rw [hiff]
    constructor
    · rintro ⟨h1 | h1, h2 | h2⟩
      · exact absurd h1 (by simp)
      · exact absurd h1 (by simp)
      · exact absurd h2 (by simp)
      · exact ⟨h2, fun _ => h1⟩
    · rintro ⟨h1, h2⟩
      exact ⟨Or.inr (h2 rfl), Or.inr h1⟩

theorem verifyClaim_not_error (bridge : Bool) (tx : TxM) (mundo bridgeFee : Nat)
    (hscan : ∀ o ∈ tx.vout, checkSatoriValue mundo o ≠ none ∧
      (bridge = true → checkSatoriValue bridgeFee o ≠ none))
    (e : CompleterErr) :
    verifyClaim bridge tx mundo bridgeFee ≠ .error e := by
  cases bridge with
  | false =>
    unfold verifyClaim
    rw [if_neg (by simp : ¬ (false = true))]
    exact (verifyClaimLoop_spec mundo tx.vout false
      (fun o ho => (hscan o ho).1)).1 e
  | true =>
    unfold verifyClaim
    rw [if_pos rfl]
    exact (verifyClaimLoopBridge_spec mundo bridgeFee tx.vout false false
      (fun o ho => ⟨(hscan o ho).2 rfl, (hscan o ho).1⟩)).1 e

/-- Faithfulness of the AttributeError path: when the fee check passes
but some output's script has `OP_EVR_ASSET` followed by a non-bytes
element, the (non-bridge) completer dies with the propagated
AttributeError — for every wallet UTXO state, before anything is
gathered or signed — rather than raising a `TransactionFailure`. -/
theorem satoriOnlyCompleterSimple_attrErr (h160ToAddr : List Nat → String)
    (mkSig : Nat → Nat → List Nat) (pub : List Nat) (tx : TxM) (F rep : Int)
    (chgA compA : String) (mundo bridgeFee : Nat)
    (hfee : verifyFee false tx F rep = .ok true)
    (hcrash : ∃ o ∈ tx.vout, checkSatoriValue mundo o = none) :
    ∀ us : List UtxoM,
      satoriOnlyCompleterSimple h160ToAddr mkSig pub us tx F rep chgA compA
        false mundo bridgeFee = .error .attributeError := by
  intro us
  have hclaim : verifyClaim false tx mundo bridgeFee = .error .attributeError := by
    unfold verifyClaim
    rw [if_neg (by simp : ¬ (false = true))]
    exact verifyClaimLoop_crash mundo tx.vout false hcrash
  simp only [satoriOnlyCompleterSimple, hfee, hclaim]

theorem verifyClaimAddress_iff (h160ToAddr : List Nat → String) (bridge : Bool)
    (tx : TxM) (compA : String)
    (hlen : (if bridge then 4 else 2) ≤ tx.vout.length) :
    verifyClaimAddress h160ToAddr bridge tx compA = .ok true ↔
      ∃ o, negGet tx.vout (if bridge then 4 else 2) = some o ∧
        ∃ bts, o.scriptPubKey.get? 2 = some (.data bts) ∧
          compA = h160ToAddr bts := by
  obtain ⟨o, ho⟩ := negGet_isSome tx.vout (if bridge then 4 else 2)
    (by cases bridge <;> norm_num) hlen
  unfold verifyClaimAddress
  simp only [ho]
  constructor
  · intro h
    have hb : scriptAddrMatches h160ToAddr o.scriptPubKey compA = true := by injection h
    exact ⟨o, rfl, (scriptAddrMatches_iff h160ToAddr o.scriptPubKey compA).mp hb⟩
  · rintro ⟨o2, ho2, hrest⟩
    obtain rfl : o = o2 := by injection ho2
    rw [(scriptAddrMatches_iff h160ToAddr o.scriptPubKey compA).mpr hrest]

theorem verifyClaimAddress_not_error (h160ToAddr : List Nat → String) (bridge : Bool)
    (tx : TxM) (compA : String)
    (hlen : (if bridge then 4 else 2) ≤ tx.vout.length) (e : CompleterErr) :
    verifyClaimAddress h160ToAddr bridge tx compA ≠ .error e := by
  obtain ⟨o, ho⟩ := negGet_isSome tx.vout (if bridge then 4 else 2)
    (by cases bridge <;> norm_num) hlen
  simp [verifyClaimAddress, ho]

theorem verifyChangeAddress_iff (h160ToAddr : List Nat → String) (bridge : Bool)
    (tx : TxM) (chgA : String)
    (hlen : (if bridge then 2 else 1) ≤ tx.vout.length) :
    verifyChangeAddress h160ToAddr bridge tx chgA = .ok true ↔
      ∃ o, negGet tx.vout (if bridge then 2 else 1) = some o ∧
        ∃ bts, o.scriptPubKey.get? 2 = some (.data bts) ∧
          chgA = h160ToAddr bts := by
  obtain ⟨o, ho⟩ := negGet_isSome tx.vout (if bridge then 2 else 1)
    (by cases bridge <;> norm_num) hlen
  unfold verifyChangeAddress
  simp only [ho]
  constructor
  · intro h
    have hb : scriptAddrMatches h160ToAddr o.scriptPubKey chgA = true := by injection h
    exact ⟨o, rfl, (scriptAddrMatches_iff h160ToAddr o.scriptPubKey chgA).mp hb⟩
  · rintro ⟨o2, ho2, hrest⟩
    obtain rfl : o = o2 := by injection ho2
    rw [(scriptAddrMatches_iff h160ToAddr o.scriptPubKey chgA).mpr hrest]

theorem verifyChangeAddress_not_error (h160ToAddr : List Nat → String) (bridge : Bool)
    (tx : TxM) (chgA : String)
    (hlen : (if bridge then 2 else 1) ≤ tx.vout.length) (e : CompleterErr) :
    verifyChangeAddress h160ToAddr bridge tx chgA ≠ .error e := by
  obtain ⟨o, ho⟩ := negGet_isSome tx.vout (if bridge then 2 else 1)
    (by cases bridge <;> norm_num) hlen
  simp [verifyChangeAddress, ho]

/-- C1: the completer accepts only when all four checks of the claim hold
(fee below one whole coin and strictly below the reservation, the
declared change output worth exactly `feeSatsReserved − reportedFeeSats`,
an exact mundo-fee claim output — plus an exact bridge-fee output for
bridge sends — and both outputs decoding, via the embedded public-key
hash, to `completerAddress` / `changeAddress`); and when any check fails
it raises the corresponding `TransactionFailure` *for every possible
wallet UTXO state* — nothing is gathered, signed or broadcast
(fail-closed).  Stated, like the IndexError fence `hlen`, under the
disclosed hypothesis `hscan` that every output script survives the
`_checkSatoriValue` scan: a script with `OP_EVR_ASSET` followed by a
non-push element makes the source raise AttributeError instead of a
`TransactionFailure` (see `satoriOnlyCompleterSimple_attrErr` for that
crash path, reachable through adversarial deserialized transactions). -/
theorem claim_C1_completer_fail_closed (h160ToAddr : List Nat → String)
    (mkSig : Nat → Nat → List Nat) (pub : List Nat)
    (unspent : List UtxoM) (tx : TxM) (F rep : Int)
    (chgA compA : String) (bridge : Bool) (mundo bridgeFee : Nat)
    (hlen : (if bridge then 4 else 2) ≤ tx.vout.length)
    (hscan : ∀ o ∈ tx.vout, checkSatoriValue mundo o ≠ none ∧
      (bridge = true → checkSatoriValue bridgeFee o ≠ none)) :
    (∀ tx2, satoriOnlyCompleterSimple h160ToAddr mkSig pub unspent tx F rep
        chgA compA bridge mundo bridgeFee = .ok tx2 →
      completerChecksOk h160ToAddr tx F rep chgA compA bridge mundo bridgeFee) ∧
    (¬ completerChecksOk h160ToAddr tx F rep chgA compA bridge mundo bridgeFee →
      ∃ e, (e = CompleterErr.feeMismatch ∨ e = CompleterErr.claimMismatch ∨
            e = CompleterErr.claimAddressMismatch ∨
            e = CompleterErr.changeAddressMismatch) ∧
        ∀ us : List UtxoM,
          satoriOnlyCompleterSimple h160ToAddr mkSig pub us tx F rep
            chgA compA bridge mundo bridgeFee = .error e) := by
  have hlen2 : (if bridge then 2 else 1) ≤ tx.vout.length := by
    cases bridge <;> simp_all <;> omega
  have hFee := verifyFee_iff bridge tx F rep hlen2
  have hClm := verifyClaim_iff bridge tx mundo bridgeFee hscan
  have hCA := verifyClaimAddress_iff h160ToAddr bridge tx compA hlen
  have hChA := verifyChangeAddress_iff h160ToAddr bridge tx chgA hlen2
  constructor
  · intro tx2 hok
    unfold satoriOnlyCompleterSimple at hok
    cases hv1 : verifyFee bridge tx F rep with
    | error e =>
      rw [hv1] at hok
      exact absurd hok (by simp)
    | ok b1 =>
      rw [hv1] at hok
      cases b1 with
      | false => exact absurd hok (by simp)
      | true =>
        cases hv2 : verifyClaim bridge tx mundo bridgeFee with
        | error e =>
          rw [hv2] at hok
          exact absurd hok (by simp)
        | ok b2 =>
          rw [hv2] at hok
          cases b2 with
          | false =>
            have hok2 : (if bridge = true then
                  (if tx.vout.length < 4 then
                    (Except.error CompleterErr.indexError : Except CompleterErr TxM)
                  else .error .claimMismatch)
                else
                  (if tx.vout.length < 2 then .error .indexError
                  else .error .claimMismatch)) = .ok tx2 := hok
            cases bridge with
            | true =>
              rw [if_pos rfl] at hok2
              by_cases hl : tx.vout.length < 4
              · rw [if_pos hl] at hok2
                exact absurd hok2 (by simp)
              · rw [if_neg hl] at hok2
                exact absurd hok2 (by simp)
            | false =>
              rw [if_neg (by simp : ¬ (false = true))] at hok2
              by_cases hl : tx.vout.length < 2
              · rw [if_pos hl] at hok2
                exact absurd hok2 (by simp)
              · rw [if_neg hl] at hok2
                exact absurd hok2 (by simp)
          | true =>
            cases hv3 : verifyClaimAddress h160ToAddr bridge tx compA with
            | error e =>
              rw [hv3] at hok
              exact absurd hok (by simp)
            | ok b3 =>
              rw [hv3] at hok
              cases b3 with
              | false => exact absurd hok (by simp)
              | true =>
                cases hv4 : verifyChangeAddress h160ToAddr bridge tx chgA with
                | error e =>
                  rw [hv4] at hok
                  exact absurd hok (by simp)
                | ok b4 =>
                  rw [hv4] at hok
                  cases b4 with
                  | false => exact absurd hok (by simp)
                  | true =>
                    exact ⟨hFee.mp hv1, hClm.mp hv2, hCA.mp hv3, hChA.mp hv4⟩
  · intro hnot
    by_cases hA : rep < 100000000 ∧ rep < F ∧
        ∃ chg, negGet tx.vout (if bridge then 2 else 1) = some chg ∧
          chg.nValue = F - rep
    · by_cases hB : (∃ o ∈ tx.vout, checkSatoriValue mundo o = some true) ∧
          (bridge = true → ∃ o ∈ tx.vout, checkSatoriValue bridgeFee o = some true)
      · by_cases hC : ∃ o, negGet tx.vout (if bridge then 4 else 2) = some o ∧
            ∃ bts, o.scriptPubKey.get? 2 = some (.data bts) ∧
              compA = h160ToAddr bts
        · have hD : ¬ ∃ o, negGet tx.vout (if bridge then 2 else 1) = some o ∧
              ∃ bts, o.scriptPubKey.get? 2 = some (.data bts) ∧
                chgA = h160ToAddr bts := by
            intro hD
            exact hnot ⟨hA, hB, hC, hD⟩
          refine ⟨.changeAddressMismatch, Or.inr (Or.inr (Or.inr rfl)), ?_⟩
          intro us
          have hv4 : verifyChangeAddress h160ToAddr bridge tx chgA = .ok false := by
            cases hv : verifyChangeAddress h160ToAddr bridge tx chgA with
            | error e => exact absurd hv (verifyChangeAddress_not_error h160ToAddr bridge tx chgA hlen2 e)
            | ok b =>
              cases b with
              | true => exact absurd (hChA.mp hv) hD
              | false => rfl
          simp only [satoriOnlyCompleterSimple, hFee.mpr hA, hClm.mpr hB,
            eq_self_iff_true, if_true, hCA.mpr hC, hv4]
        · refine ⟨.claimAddressMismatch, Or.inr (Or.inr (Or.inl rfl)), ?_⟩
          intro us
          have hv3 : verifyClaimAddress h160ToAddr bridge tx compA = .ok false := by
            cases hv : verifyClaimAddress h160ToAddr bridge tx compA with
            | error e => exact absurd hv (verifyClaimAddress_not_error h160ToAddr bridge tx compA hlen e)
            | ok b =>
              cases b with
              | true => exact absurd (hCA.mp hv) hC
              | false => rfl
          simp only [satoriOnlyCompleterSimple, hFee.mpr hA, hClm.mpr hB,
            eq_self_iff_true, if_true, hv3]
      · refine ⟨.claimMismatch, Or.inr (Or.inl rfl), ?_⟩
        intro us
        have hv2 : verifyClaim bridge tx mundo bridgeFee = .ok false := by
          cases hv : verifyClaim bridge tx mundo bridgeFee with
          | error e =>
            exact absurd hv (verifyClaim_not_error bridge tx mundo bridgeFee hscan e)
          | ok b =>
            cases b with
            | true => exact absurd (hClm.mp hv) hB
            | false => rfl
        simp only [satoriOnlyCompleterSimple, hFee.mpr hA, hv2]
        cases bridge with
        | true =>
          rw [if_pos rfl, if_neg (by simp at hlen; omega : ¬ tx.vout.length < 4)]
        | false =>
          rw [if_neg (by simp : ¬ (false = true)),
            if_neg (by simp at hlen; omega : ¬ tx.vout.length < 2)]
    · refine ⟨.feeMismatch, Or.inl rfl, ?_⟩
      intro us
      have hv1 : verifyFee bridge tx F rep = .ok false := by
        cases hv : verifyFee bridge tx F rep with
        | error e => exact absurd hv (verifyFee_not_error bridge tx F rep hlen2 e)
        | ok b =>
          cases b with
          | true => exact absurd (hFee.mp hv) hA
          | false => rfl
      simp only [satoriOnlyCompleterSimple, hv1]

theorem claim_C1_completer_fail_closed_witness :
    (∀ tx2, satoriOnlyCompleterSimple (fun _ => "") (fun _ _ => []) [] []
        { vin := [], vout := [⟨0, []⟩, ⟨0, []⟩] } 0 0 "" "" false 0 0 = .ok tx2 →
      completerChecksOk (fun _ => "") { vin := [], vout := [⟨0, []⟩, ⟨0, []⟩] }
        0 0 "" "" false 0 0) ∧
    (¬ completerChecksOk (fun _ => "") { vin := [], vout := [⟨0, []⟩, ⟨0, []⟩] }
        0 0 "" "" false 0 0 →
      ∃ e, (e = CompleterErr.feeMismatch ∨ e = CompleterErr.claimMismatch ∨
            e = CompleterErr.claimAddressMismatch ∨
            e = CompleterErr.changeAddressMismatch) ∧
        ∀ us : List UtxoM,
          satoriOnlyCompleterSimple (fun _ => "") (fun _ _ => []) [] us
            { vin := [], vout := [⟨0, []⟩, ⟨0, []⟩] } 0 0 "" "" false 0 0 = .error e) :=
  claim_C1_completer_fail_closed (fun _ => "") (fun _ _ => []) [] []
    { vin := [], vout := [⟨0, []⟩, ⟨0, []⟩] } 0 0 "" "" false 0 0 (by norm_num)
    (by decide)

/-- C2: after the verification checks pass, the completer locates the
currency UTXO by **exact** value match: when some unspent's value equals
`feeSatsReserved` exactly, the first such UTXO (and only a UTXO of value
exactly `feeSatsReserved`) is appended as the single additional input,
signed with `SIGHASH_ANYONECANPAY | SIGHASH_ALL` (`0x81`), with the
outputs untouched; when no unspent has that exact value — however many
larger ones exist — it raises the ReservedUtxoNotFound
`TransactionFailure` and returns nothing.  Stated, like the IndexError
fence `hlen`, under the disclosed hypothesis `hscan` that every output
script survives the `_checkSatoriValue` scan: a malformed
`OP_EVR_ASSET` script would make the source raise AttributeError before
gathering (see `satoriOnlyCompleterSimple_attrErr`). -/
theorem claim_C2_completer_exact_reservation (h160ToAddr : List Nat → String)
    (mkSig : Nat → Nat → List Nat) (pub : List Nat)
    (unspent : List UtxoM) (tx : TxM) (F rep : Int)
    (chgA compA : String) (bridge : Bool) (mundo bridgeFee : Nat)
    (hlen : (if bridge then 4 else 2) ≤ tx.vout.length)
    (hscan : ∀ o ∈ tx.vout, checkSatoriValue mundo o ≠ none ∧
      (bridge = true → checkSatoriValue bridgeFee o ≠ none))
    (hpass : completerChecksOk h160ToAddr tx F rep chgA compA bridge mundo bridgeFee) :
    ((∃ u ∈ unspent, u.value = F) →
      ∃ u, gatherReservedCurrencyUnspent unspent F = some u ∧ u ∈ unspent ∧
        u.value = F ∧
        satoriOnlyCompleterSimple h160ToAddr mkSig pub unspent tx F rep chgA
            compA bridge mundo bridgeFee =
          .ok { vin := tx.vin ++ [⟨u.txHash, u.txPos,
                  [.data (mkSig tx.vin.length
                      (SIGHASH_ANYONECANPAY ||| SIGHASH_ALL) ++
                    [SIGHASH_ANYONECANPAY ||| SIGHASH_ALL]), .data pub]⟩],
                vout := tx.vout }) ∧
    SIGHASH_ANYONECANPAY ||| SIGHASH_ALL = 129 ∧
    ((∀ u ∈ unspent, u.value ≠ F) →
      satoriOnlyCompleterSimple h160ToAddr mkSig pub unspent tx F rep chgA
          compA bridge mundo bridgeFee = .error .reservedUtxoNotFound) := by
  have hlen2 : (if bridge then 2 else 1) ≤ tx.vout.length := by
    cases bridge <;> simp_all <;> omega
  obtain ⟨hA, hB, hC, hD⟩ := hpass
  have hv1 := (verifyFee_iff bridge tx F rep hlen2).mpr hA
  have hv2 := (verifyClaim_iff bridge tx mundo bridgeFee hscan).mpr hB
  have hv3 := (verifyClaimAddress_iff h160ToAddr bridge tx compA hlen).mpr hC
  have hv4 := (verifyChangeAddress_iff h160ToAddr bridge tx chgA hlen2).mpr hD
  refine ⟨?_, by decide, ?_⟩
  · rintro ⟨u0, hu0, hval0⟩
    rcases hfil : unspent.filter (fun u => u.value == F) with _ | ⟨u, rest⟩
    · exfalso
      have hmem : u0 ∈ unspent.filter (fun u => u.value == F) :=
        List.mem_filter.mpr ⟨hu0, by simp [hval0]⟩
      rw [hfil] at hmem
      exact absurd hmem (List.not_mem_nil u0)
    · have hmem : u ∈ unspent.filter (fun u => u.value == F) := by
        rw [hfil]
        exact List.mem_cons_self u rest
      obtain ⟨humem, hubeq⟩ := List.mem_filter.mp hmem
      have huval : u.value = F := by simpa using hubeq
      have hgather : gatherReservedCurrencyUnspent unspent F = some u := by
        unfold gatherReservedCurrencyUnspent
        rw [hfil]
        rfl
      refine ⟨u, hgather, humem, huval, ?_⟩
      simp only [satoriOnlyCompleterSimple, hv1, hv2, eq_self_iff_true, if_true,
        hv3, hv4, hgather]
      simp [createPartialCompleterSimple, compileCurrencyInputs,
        signNewInputs, signInputP2PKH]
  · intro hnone
    have hfil : unspent.filter (fun u => u.value == F) = [] := by
      apply List.filter_eq_nil.mpr
      intro u hu
      simp only [beq_iff_eq]
      simpa using hnone u hu
    have hgather : gatherReservedCurrencyUnspent unspent F = none := by
      unfold gatherReservedCurrencyUnspent
      rw [hfil]
      rfl
    simp only [satoriOnlyCompleterSimple, hv1, hv2, eq_self_iff_true, if_true,
      hv3, hv4, hgather]

/-- C9: whenever a P2SH input is signed with co-signer signatures
supplied, the unlocking script is the combined signatures sorted by raw
byte value followed by the redeem script; any two parties holding the
same multiset of combined signatures produce the *identical* scriptSig;
and the channel finalize path rebuilds input 0's unlocking script through
exactly that code path from the extracted embedded signatures. -/
theorem claim_C9_multisig_sig_ordering (mk1 mk2 : Nat → Nat → List Nat)
    (i flag : Nat) (rs : List Nat) (sigs sigs2 : List (List Nat)) (tx : TxM)
    (txin : TxInM) (rest : List TxInM) :
    (sigs ≠ [] →
      ∃ l : List (List Nat),
        signInputP2SH mk1 i flag rs sigs = l.map .data ++ [.data rs] ∧
        l.Perm (sigs ++ [mk1 i flag ++ [flag]]) ∧ l.Sorted (· ≤ ·)) ∧
    (sigs ≠ [] → sigs2 ≠ [] →
      (sigs ++ [mk1 i flag ++ [flag]]).Perm (sigs2 ++ [mk2 i flag ++ [flag]]) →
      signInputP2SH mk1 i flag rs sigs = signInputP2SH mk2 i flag rs sigs2) ∧
    (tx.vin = txin :: rest →
      ∃ tx2, finaliseCommitmentTx mk1 tx rs = some tx2 ∧
        tx2.vout = tx.vout ∧
        tx2.vin = { txin with scriptSig := (signInputP2SH mk1 0 SIGHASH_ALL rs
          (txin.scriptSig.filterMap fun e => match e with
            | .data b => some b
            | _ => none)) } :: rest) := by
  haveI : IsTotal (List Nat) (· ≤ ·) := ⟨fun a b => le_total a b⟩
  haveI : IsTrans (List Nat) (· ≤ ·) := ⟨fun a b c => le_trans⟩
  haveI : IsAntisymm (List Nat) (· ≤ ·) := ⟨fun a b => le_antisymm⟩
  refine ⟨?_, ?_, ?_⟩
  · intro h
    refine ⟨List.insertionSort (· ≤ ·) (sigs ++ [mk1 i flag ++ [flag]]), ?_, ?_, ?_⟩
    · simp only [signInputP2SH]
      rw [if_pos h]
    · exact List.perm_insertionSort (· ≤ ·) _
    · exact List.sorted_insertionSort (· ≤ ·) _
  · intro h1 h2 hperm
    simp only [signInputP2SH]
    rw [if_pos h1, if_pos h2]
    have hsorteq : List.insertionSort (· ≤ ·) (sigs ++ [mk1 i flag ++ [flag]]) =
        List.insertionSort (· ≤ ·) (sigs2 ++ [mk2 i flag ++ [flag]]) :=
      List.eq_of_perm_of_sorted
        (((List.perm_insertionSort (· ≤ ·) _).trans hperm).trans
          (List.perm_insertionSort (· ≤ ·) _).symm)
        (List.sorted_insertionSort (· ≤ ·) _)
        (List.sorted_insertionSort (· ≤ ·) _)
    rw [hsorteq]
  · intro hvin
    refine ⟨{ tx with vin := { txin with scriptSig := (signInputP2SH mk1 0 SIGHASH_ALL rs
        (txin.scriptSig.filterMap fun e => match e with
          | .data b => some b
          | _ => none)) } :: rest }, ?_, rfl, rfl⟩
    simp only [finaliseCommitmentTx, hvin]

theorem claim_C9_multisig_sig_ordering_witness :
    (([[2, 1]] : List (List Nat)) ≠ [] →
      ∃ l : List (List Nat),
        signInputP2SH (fun _ _ => [1]) 0 1 [9] [[2, 1]] =
          l.map .data ++ [.data [9]] ∧
        l.Perm ([[2, 1]] ++ [(fun _ _ => [1] : Nat → Nat → List Nat) 0 1 ++ [1]]) ∧
        l.Sorted (· ≤ ·)) ∧
    (([[2, 1]] : List (List Nat)) ≠ [] → ([[1, 1]] : List (List Nat)) ≠ [] →
      ([[2, 1]] ++ [(fun _ _ => [1] : Nat → Nat → List Nat) 0 1 ++ [1]]).Perm
        ([[1, 1]] ++ [(fun _ _ => [2] : Nat → Nat → List Nat) 0 1 ++ [1]]) →
      signInputP2SH (fun _ _ => [1]) 0 1 [9] [[2, 1]] =
        signInputP2SH (fun _ _ => [2]) 0 1 [9] [[1, 1]]) ∧
    ((TxM.mk [⟨[1], 0, [.data [7]]⟩] []).vin = ⟨[1], 0, [.data [7]]⟩ :: [] →
      ∃ tx2, finaliseCommitmentTx (fun _ _ => [1]) (TxM.mk [⟨[1], 0, [.data [7]]⟩] []) [9] =
          some tx2 ∧
        tx2.vout = (TxM.mk [⟨[1], 0, [.data [7]]⟩] []).vout ∧
        tx2.vin = { (⟨[1], 0, [.data [7]]⟩ : TxInM) with
          scriptSig := (signInputP2SH (fun _ _ => [1]) 0 SIGHASH_ALL [9]
            ((⟨[1], 0, [.data [7]]⟩ : TxInM).scriptSig.filterMap fun e => match e with
              | .data b => some b
              | _ => none)) } :: []) :=
  claim_C9_multisig_sig_ordering (fun _ _ => [1]) (fun _ _ => [2]) 0 1 [9]
    [[2, 1]] [[1, 1]] (TxM.mk [⟨[1], 0, [.data [7]]⟩] []) ⟨[1], 0, [.data [7]]⟩ []

theorem claim_C2_completer_exact_reservation_witness :
    ((∃ u ∈ cUnspent, u.value = 1000) →
      ∃ u, gatherReservedCurrencyUnspent cUnspent 1000 = some u ∧ u ∈ cUnspent ∧
        u.value = 1000 ∧
        satoriOnlyCompleterSimple cH160 cMkSig cPub cUnspent cTx 1000 100 "chg"
            "comp" false 10000 0 =
          .ok { vin := cTx.vin ++ [⟨u.txHash, u.txPos,
                  [.data (cMkSig cTx.vin.length
                      (SIGHASH_ANYONECANPAY ||| SIGHASH_ALL) ++
                    [SIGHASH_ANYONECANPAY ||| SIGHASH_ALL]), .data cPub]⟩],
                vout := cTx.vout }) ∧
    SIGHASH_ANYONECANPAY ||| SIGHASH_ALL = 129 ∧
    ((∀ u ∈ cUnspent, u.value ≠ 1000) →
      satoriOnlyCompleterSimple cH160 cMkSig cPub cUnspent cTx 1000 100 "chg"
          "comp" false 10000 0 = .error .reservedUtxoNotFound) :=
  claim_C2_completer_exact_reservation cH160 cMkSig cPub cUnspent cTx 1000 100
    "chg" "comp" false 10000 0 (by decide) (by decide)
    ⟨⟨by norm_num, by norm_num, ⟨cChgOut, rfl, by decide⟩⟩,
     ⟨⟨cClaimOut, by simp [cTx], by decide⟩, by simp⟩,
     ⟨cClaimOut, rfl, ⟨[7], rfl, rfl⟩⟩,
     ⟨cChgOut, rfl, ⟨[9], rfl, rfl⟩⟩⟩

end Satori

